import Mathlib

/-!
Verification model of the statement-to-structured-data extraction pipeline
of the asset-manager repository (`ai_statement_parser.py` and
`statement_parser.py`).

Modelling conventions:
* character strings are lists of characters (`Str`);
* Python floats are rationals (the statements compared stay inside the
  exactly representable range, and rounding is applied where the source
  rounds);
* Python exceptions are `Option`/dedicated error constructors;
* the concrete regular expressions of the source are modelled either by a
  small backtracking engine mirroring CPython `re` semantics, or, for the
  two JSON-extraction regexes of `_parse_ai_response`, by their direct
  operational characterisation on strings.
-/

namespace AssetModel

set_option maxRecDepth 40000

/-- Character strings, modelled as lists of characters. -/
abbrev Str := List Char

/-- Python `\s` / `str.strip` whitespace (ASCII range used by the source data). -/
def isWsC (c : Char) : Bool :=
  c = ' ' || c = '\t' || c = '\n' || c = '\r' || c = '\x0b' || c = '\x0c'

/-- ASCII decimal digit, Python regex `\d` on the source's data. -/
def isDigitC (c : Char) : Bool := '0' ≤ c && c ≤ '9'

/-- ASCII uppercase letter, regex class `[A-Z]`. -/
def isUpperC (c : Char) : Bool := 'A' ≤ c && c ≤ 'Z'

/-- Python regex word character `\w` (ASCII range). -/
def isWordC (c : Char) : Bool :=
  isDigitC c || isUpperC c || ('a' ≤ c && c ≤ 'z') || c = '_'

/-- Test whether the first string is a prefix of the second. -/
def startsWithCs : Str → Str → Bool
  | [], _ => true
  | k :: ks, c :: cs => k = c && startsWithCs ks cs
  | _ :: _, [] => false

/-- Test whether `key` occurs as a contiguous substring (Python `key in s`). -/
def occursIn (key : Str) : Str → Bool
  | [] => startsWithCs key []
  | c :: t => startsWithCs key (c :: t) || occursIn key t

/-- Split at the first occurrence of `key`: returns the part before the
occurrence and the part after it. -/
def splitAtKey (key : Str) : Str → Option (Str × Str)
  | [] => if startsWithCs key [] then some ([], []) else none
  | c :: t =>
    if startsWithCs key (c :: t) then some ([], (c :: t).drop key.length)
    else (splitAtKey key t).map (fun p => (c :: p.1, p.2))

/-- Python `str.strip()`: drop whitespace from both ends. -/
def stripCs (s : Str) : Str :=
  ((s.dropWhile isWsC).reverse.dropWhile isWsC).reverse

/-- Python `str.lower()` (ASCII). -/
def lowerCs (s : Str) : Str := s.map Char.toLower

/-- Python `str.split(sep)` for a one-character separator (keeps empty pieces). -/
def splitOnC (sep : Char) : Str → List Str
  | [] => [[]]
  | c :: t =>
    if c = sep then [] :: splitOnC sep t
    else
      match splitOnC sep t with
      | [] => [[c]]
      | p :: ps => (c :: p) :: ps

/-- Python `str.replace(c, '')`. -/
def removeAllC (x : Char) (s : Str) : Str := s.filter (fun c => c ≠ x)

/-- Python `str.isdigit()` on ASCII content. -/
def isDigitStr (s : Str) : Bool := !s.isEmpty && s.all isDigitC

/-- Numeric value of an ASCII digit. -/
def digitVal (c : Char) : ℕ := c.toNat - '0'.toNat

/-- Natural number denoted by a digit string. -/
def natOfDigits (s : Str) : ℕ := s.foldl (fun a c => 10 * a + digitVal c) 0

/-!
Rational arithmetic used by the model.  The core operations on `ℚ` are
marked irreducible, which blocks `decide` on ground instances of the
definitions below, so the model computes through `mkRat`-based wrappers;
bridge lemmas identify them with the ordinary operations.
-/

/-- Addition on `ℚ`, kernel-reducible. -/
def qAdd (a b : ℚ) : ℚ := mkRat (a.num * b.den + b.num * a.den) (a.den * b.den)

/-- Multiplication on `ℚ`, kernel-reducible. -/
def qMul (a b : ℚ) : ℚ := mkRat (a.num * b.num) (a.den * b.den)

/-- Division on `ℚ`, kernel-reducible (zero for a zero divisor, which the
modelled code guards against anyway). -/
def qDiv (a b : ℚ) : ℚ :=
  if 0 ≤ b.num then mkRat (a.num * b.den) (a.den * b.num.toNat)
  else mkRat (-(a.num * b.den)) (a.den * (-b.num).toNat)

/-- Bridge: `qAdd` is ordinary rational addition. -/
theorem qAdd_eq (a b : ℚ) : qAdd a b = a + b := by
  unfold qAdd
  rw [Rat.mkRat_eq_div]
  have ha : (a.den : ℚ) ≠ 0 := Nat.cast_ne_zero.mpr a.den_nz
  have hb : (b.den : ℚ) ≠ 0 := Nat.cast_ne_zero.mpr b.den_nz
  conv_rhs => rw [← Rat.num_div_den a, ← Rat.num_div_den b]
  push_cast
  field_simp


/-- Bridge: `qMul` is ordinary rational multiplication. -/
theorem qMul_eq (a b : ℚ) : qMul a b = a * b := by
  unfold qMul
  rw [Rat.mkRat_eq_div]
  have ha : (a.den : ℚ) ≠ 0 := Nat.cast_ne_zero.mpr a.den_nz
  have hb : (b.den : ℚ) ≠ 0 := Nat.cast_ne_zero.mpr b.den_nz
  conv_rhs => rw [← Rat.num_div_den a, ← Rat.num_div_den b]
  push_cast
  rw [div_mul_div_comm]


/-- Bridge: `qDiv` is ordinary rational division (with the zero-divisor
convention shared by both sides). -/
theorem qDiv_eq (a b : ℚ) : qDiv a b = a / b := by
  unfold qDiv
  rcases eq_or_ne b 0 with rfl | hb0
  · simp [Rat.mkRat_eq_div]
  · have hbnum : b.num ≠ 0 := Rat.num_ne_zero.mpr hb0
    have ha : (a.den : ℚ) ≠ 0 := Nat.cast_ne_zero.mpr a.den_nz
    have hd : (b.den : ℚ) ≠ 0 := Nat.cast_ne_zero.mpr b.den_nz
    have hnq : (b.num : ℚ) ≠ 0 := Int.cast_ne_zero.mpr hbnum
    rcases lt_or_gt_of_ne hbnum with hneg | hpos
    · rw [if_neg (not_le.mpr hneg), Rat.mkRat_eq_div]
      have ht : (((-b.num).toNat : ℤ) : ℚ) = -(b.num : ℚ) := by
        rw [Int.toNat_of_nonneg (by omega : (0 : ℤ) ≤ -b.num)]
        push_cast
        ring
      have h1 : ((a.den * (-b.num).toNat : ℕ) : ℚ) = (a.den : ℚ) * (-(b.num : ℚ)) := by
        push_cast
        rw [← @Int.cast_natCast ℚ _ ((-b.num).toNat), ht]
      have h2 : ((-(a.num * b.den) : ℤ) : ℚ) = -((a.num : ℚ) * (b.den : ℚ)) := by
        push_cast
        ring
      rw [h1, h2]
      conv_rhs => rw [← Rat.num_div_den a, ← Rat.num_div_den b]
      field_simp
    · rw [if_pos (le_of_lt hpos), Rat.mkRat_eq_div]
      have ht : ((b.num.toNat : ℤ) : ℚ) = (b.num : ℚ) := by
        rw [Int.toNat_of_nonneg (le_of_lt hpos)]
      have h1 : ((a.den * b.num.toNat : ℕ) : ℚ) = (a.den : ℚ) * (b.num : ℚ) := by
        push_cast
        rw [← @Int.cast_natCast ℚ _ b.num.toNat, ht]
      have h2 : ((a.num * b.den : ℤ) : ℚ) = (a.num : ℚ) * (b.den : ℚ) := by
        push_cast
        ring
      rw [h1, h2]
      conv_rhs => rw [← Rat.num_div_den a, ← Rat.num_div_den b]
      field_simp

/-- Fractional value denoted by a digit string read after a decimal point. -/
def fracOfDigits (s : Str) : ℚ :=
  mkRat (natOfDigits s) (10 ^ s.length)

/-- Python `float(str)` on finite decimal literals: optional surrounding
whitespace, optional sign, digits with optional fractional part, optional
exponent; at least one mantissa digit is required.  Strings that raise
`ValueError` give `none`.  Nonfinite literals (`inf`, `nan`) are outside
the model (the statements never feed them). -/
def pyFloat (s0 : Str) : Option ℚ :=
  let s1 := stripCs s0
  let sign : ℚ × Str :=
    match s1 with
    | '-' :: t => (mkRat (-1) 1, t)
    | '+' :: t => (1, t)
    | t => (1, t)
  let intPart := sign.2.takeWhile isDigitC
  let r1 := sign.2.dropWhile isDigitC
  let fracAndRest : Str × Str :=
    match r1 with
    | '.' :: t => (t.takeWhile isDigitC, t.dropWhile isDigitC)
    | t => ([], t)
  let fracPart := fracAndRest.1
  let r2 := fracAndRest.2
  if intPart.isEmpty && fracPart.isEmpty then none
  else
    let mant : ℚ :=
      qMul sign.1 (qAdd (mkRat (natOfDigits intPart) 1) (fracOfDigits fracPart))
    match r2 with
    | [] => some mant
    | e :: t =>
      if e = 'e' || e = 'E' then
        let esign : Bool × Str :=
          match t with
          | '-' :: t2 => (false, t2)
          | '+' :: t2 => (true, t2)
          | t2 => (true, t2)
        let expDigits := esign.2.takeWhile isDigitC
        if expDigits.isEmpty || !(esign.2.dropWhile isDigitC).isEmpty then none
        else if esign.1 then some (qMul mant (mkRat (10 ^ natOfDigits expDigits) 1))
        else some (qMul mant (mkRat 1 (10 ^ natOfDigits expDigits)))
      else none

/-- JSON values as produced by Python `json.loads` (numbers as rationals,
nonfinite extensions excluded, object field order and duplicates preserved). -/
inductive JVal where
  | null
  | bool (b : Bool)
  | num (q : ℚ)
  | str (s : Str)
  | arr (elems : List JVal)
  | obj (fields : List (Str × JVal))

/-- JSON structural whitespace. -/
def isJWs (c : Char) : Bool := c = ' ' || c = '\t' || c = '\n' || c = '\r'

/-- Skip JSON whitespace. -/
def jSkipWs (s : Str) : Str := s.dropWhile isJWs

/-- Hex digit value for `\u` escapes (code points 0-9, a-f, A-F). -/
def hexVal (c : Char) : Option ℕ :=
  let n := c.toNat
  if 48 ≤ n ∧ n ≤ 57 then some (n - 48)
  else if 97 ≤ n ∧ n ≤ 102 then some (n - 87)
  else if 65 ≤ n ∧ n ≤ 70 then some (n - 55)
  else none

/-- Single-character JSON escapes. -/
def jEscChar (c : Char) : Option Char :=
  if c = '"' then some '"'
  else if c = '\\' then some '\\'
  else if c = '/' then some '/'
  else if c = 'b' then some '\x08'
  else if c = 'f' then some '\x0c'
  else if c = 'n' then some '\n'
  else if c = 'r' then some '\r'
  else if c = 't' then some '\t'
  else none

/-- Body of a JSON string, read after the opening quote; returns the decoded
content and the rest of the input after the closing quote.  Unescaped
control characters are rejected (strict mode), `\u` takes four hex digits
(lone surrogate handling is outside the model). -/
def jStringBody : Str → Option (Str × Str)
  | [] => none
  | c :: t =>
    if c = '"' then some ([], t)
    else if c = '\\' then
      match t with
      | 'u' :: h1 :: h2 :: h3 :: h4 :: t2 => do
        let v1 ← hexVal h1
        let v2 ← hexVal h2
        let v3 ← hexVal h3
        let v4 ← hexVal h4
        let p ← jStringBody t2
        some (Char.ofNat (((v1 * 16 + v2) * 16 + v3) * 16 + v4) :: p.1, p.2)
      | e :: t2 => do
        let d ← jEscChar e
        let p ← jStringBody t2
        some (d :: p.1, p.2)
      | [] => none
    else if c.toNat < 32 then none
    else do
      let p ← jStringBody t
      some (c :: p.1, p.2)

/-- Exponent part of a JSON number applied to the mantissa. -/
def jNumberExp (mant : ℚ) (t : Str) : Option (ℚ × Str) :=
  let esign : Bool × Str :=
    match t with
    | '-' :: t2 => (false, t2)
    | '+' :: t2 => (true, t2)
    | t2 => (true, t2)
  let ed := esign.2.takeWhile isDigitC
  if ed.isEmpty then none
  else if esign.1 then
    some (qMul mant (mkRat (10 ^ natOfDigits ed) 1), esign.2.dropWhile isDigitC)
  else some (qMul mant (mkRat 1 (10 ^ natOfDigits ed)), esign.2.dropWhile isDigitC)

/-- JSON number token at the head of the input (strict grammar: no leading
zeros, fraction and exponent need at least one digit). -/
def jNumber (s : Str) : Option (ℚ × Str) :=
  let sign : ℚ × Str :=
    match s with
    | '-' :: t => (mkRat (-1) 1, t)
    | t => (1, t)
  let intPart := sign.2.takeWhile isDigitC
  let r1 := sign.2.dropWhile isDigitC
  if intPart.isEmpty then none
  else if intPart.length > 1 && intPart.headI = '0' then none
  else
    let fracStep : Option (ℚ × Str) :=
      match r1 with
      | '.' :: t =>
        let fd := t.takeWhile isDigitC
        if fd.isEmpty then none
        else some (fracOfDigits fd, t.dropWhile isDigitC)
      | t => some (0, t)
    match fracStep with
    | none => none
    | some (fv, r2) =>
      let mant : ℚ := qMul sign.1 (qAdd (mkRat (natOfDigits intPart) 1) fv)
      match r2 with
      | 'e' :: t => jNumberExp mant t
      | 'E' :: t => jNumberExp mant t
      | t => some (mant, t)

mutual

/-- JSON value at the head of the input (fuelled recursive descent). -/
def jValue : ℕ → Str → Option (JVal × Str)
  | 0, _ => none
  | f + 1, s =>
    match jSkipWs s with
    | [] => none
    | c :: t =>
      if c = '"' then (jStringBody t).map (fun p => (JVal.str p.1, p.2))
      else if c = 't' then
        if startsWithCs "rue".toList t then some (JVal.bool true, t.drop 3) else none
      else if c = 'f' then
        if startsWithCs "alse".toList t then some (JVal.bool false, t.drop 4) else none
      else if c = 'n' then
        if startsWithCs "ull".toList t then some (JVal.null, t.drop 3) else none
      else if c = '[' then
        match jSkipWs t with
        | ']' :: r => some (JVal.arr [], r)
        | _ => (jElems f t).map (fun p => (JVal.arr p.1, p.2))
      else if c = '\x7b' then
        match jSkipWs t with
        | '\x7d' :: r => some (JVal.obj [], r)
        | _ => (jMembers f t).map (fun p => (JVal.obj p.1, p.2))
      else (jNumber (c :: t)).map (fun p => (JVal.num p.1, p.2))

/-- Comma-separated array elements up to the closing bracket. -/
def jElems : ℕ → Str → Option (List JVal × Str)
  | 0, _ => none
  | f + 1, s => do
    let p ← jValue f s
    match jSkipWs p.2 with
    | ',' :: r2 => (jElems f r2).map (fun q => (p.1 :: q.1, q.2))
    | ']' :: r2 => some ([p.1], r2)
    | _ => none

/-- Comma-separated object members up to the closing brace. -/
def jMembers : ℕ → Str → Option (List (Str × JVal) × Str)
  | 0, _ => none
  | f + 1, s =>
    match jSkipWs s with
    | '"' :: t => do
      let kp ← jStringBody t
      match jSkipWs kp.2 with
      | ':' :: r2 => do
        let vp ← jValue f r2
        match jSkipWs vp.2 with
        | ',' :: r4 => (jMembers f r4).map (fun q => ((kp.1, vp.1) :: q.1, q.2))
        | '\x7d' :: r4 => some ([(kp.1, vp.1)], r4)
        | _ => none
      | _ => none
    | _ => none

end

/-- Python `json.loads`: parse one JSON document, allowing only whitespace
around it; anything else raises `JSONDecodeError`, modelled as `none`. -/
def jsonLoads (s : Str) : Option JVal := do
  let p ← jValue (s.length + 2) s
  if (jSkipWs p.2).isEmpty then some p.1 else none

/-- Python `dict.get k default` on the field list of a parsed JSON object
(the dict built by `json.loads` lets later duplicate keys overwrite
earlier ones). -/
def jget (fs : List (Str × JVal)) (k : Str) (d : JVal) : JVal :=
  match fs with
  | [] => d
  | (k2, v) :: t => if k2 = k then jget t k v else jget t k d

/-! ### A small backtracking regex engine

Mirrors CPython `re` semantics on the concrete patterns used by the
source: leftmost match, greedy (`starG`) and lazy (`starL`) repetition by
backtracking priority, word boundaries, numbered capture groups (for a
group matched several times the last capture wins, as in CPython). -/

/-- Regex abstract syntax for the source's patterns. -/
inductive RE where
  | eps
  | lit (c : Char)
  | cls (p : Char → Bool)
  | seq (a b : RE)
  | alt (a b : RE)
  | starG (a : RE)
  | starL (a : RE)
  | grp (n : ℕ) (a : RE)
  | wb
  | bos
  | eol

/-- Captured groups, in completion order. -/
abbrev Caps := List (ℕ × Str)

/-- Result of a match: captures, the character just before the remaining
input, and the remaining input. -/
abbrev MatchRes := Caps × Option Char × Str

/-- Backtracking matcher in continuation-passing style.  `prev` is the
character immediately before the current position (`none` at the start of
the subject), used by `wb`/`bos`.  The fuel, consumed one unit per
recursive entry, bounds the static nesting plus the star re-entries;
`reTry` passes a bound comfortably above the deepest path possible for
the patterns in this file, whose star bodies consume at least one
character per iteration (the explicit length check enforces this, as
CPython's engine stops a repetition that stops consuming). -/
def reM : ℕ → RE → Option Char → Str → Caps →
    (Option Char → Str → Caps → Option MatchRes) → Option MatchRes
  | 0, _, _, _, _, _ => none
  | f + 1, re, prev, s, caps, k =>
    match re with
    | .eps => k prev s caps
    | .lit c =>
      match s with
      | [] => none
      | x :: t => if x = c then k (some x) t caps else none
    | .cls p =>
      match s with
      | [] => none
      | x :: t => if p x then k (some x) t caps else none
    | .seq a b => reM f a prev s caps (fun p2 s2 c2 => reM f b p2 s2 c2 k)
    | .alt a b => (reM f a prev s caps k).orElse (fun _ => reM f b prev s caps k)
    | .starG a =>
      (reM f a prev s caps (fun p2 s2 c2 =>
        if s2.length < s.length then reM f (.starG a) p2 s2 c2 k else none)).orElse
        (fun _ => k prev s caps)
    | .starL a =>
      (k prev s caps).orElse (fun _ =>
        reM f a prev s caps (fun p2 s2 c2 =>
          if s2.length < s.length then reM f (.starL a) p2 s2 c2 k else none))
    | .grp n a =>
      reM f a prev s caps (fun p2 s2 c2 =>
        k p2 s2 (c2 ++ [(n, s.take (s.length - s2.length))]))
    | .wb =>
      let wPrev := match prev with | none => false | some c => isWordC c
      let wNext := match s with | [] => false | c :: _ => isWordC c
      if wPrev ≠ wNext then k prev s caps else none
    | .bos => match prev with | none => k prev s caps | some _ => none
    | .eol => if s.isEmpty || s = ['\n'] then k prev s caps else none

/-- Last-wins lookup of a capture group (CPython keeps the last repetition). -/
def capGet (caps : Caps) (n : ℕ) : Str :=
  (caps.foldl (fun acc p => if p.1 = n then some p.2 else acc) none).getD []

/-- Static size of a pattern, for the fuel bound. -/
def reSizeP : RE → ℕ
  | .eps => 1
  | .lit _ => 1
  | .cls _ => 1
  | .wb => 1
  | .bos => 1
  | .eol => 1
  | .seq a b => reSizeP a + reSizeP b + 1
  | .alt a b => reSizeP a + reSizeP b + 1
  | .starG a => reSizeP a + 1
  | .starL a => reSizeP a + 1
  | .grp _ a => reSizeP a + 1

/-- Try a full-priority match at the current position. -/
def reTry (re : RE) (prev : Option Char) (s : Str) : Option MatchRes :=
  reM ((s.length + 2) * (reSizeP re + s.length + 2)) re prev s []
    (fun p2 s2 c2 => some (c2, p2, s2))

/-- Scan forward for the leftmost match, as `re.search` does. -/
def reSearchFrom (re : RE) : Option Char → Str → Option MatchRes
  | prev, [] => reTry re prev []
  | prev, c :: t =>
    match reTry re prev (c :: t) with
    | some r => some r
    | none => reSearchFrom re (some c) t

/-- Model of `re.search(pattern, s)`. -/
def reSearch (re : RE) (s : Str) : Option MatchRes := reSearchFrom re none s

/-- Successive non-overlapping matches, continuing after each match end
(advancing one character after an empty match), as `re.findall` does. -/
def reFindAllFrom (re : RE) : ℕ → Option Char → Str → List Caps
  | 0, _, _ => []
  | f + 1, prev, s =>
    match reSearchFrom re prev s with
    | none => []
    | some (caps, p2, rest) =>
      if rest.length < s.length then caps :: reFindAllFrom re f p2 rest
      else
        match rest with
        | [] => [caps]
        | c :: t => caps :: reFindAllFrom re f (some c) t

/-- Model of `re.findall(pattern, s)` returning each match's captures. -/
def reFindAll (re : RE) (s : Str) : List Caps := reFindAllFrom re (s.length + 1) none s

/-- One-or-more, greedy (`+`). -/
def rePlusG (a : RE) : RE := .seq a (.starG a)

/-- Optional, greedy (`?`). -/
def reOptG (a : RE) : RE := .alt a .eps

/-- Exact repetition (`{n}`). -/
def reRepExact : ℕ → RE → RE
  | 0, _ => .eps
  | n + 1, a => .seq a (reRepExact n a)

/-- Up-to-`n` repetition, greedy (`{0,n}`). -/
def reRepUpToG : ℕ → RE → RE
  | 0, _ => .eps
  | n + 1, a => .alt (.seq a (reRepUpToG n a)) .eps

/-- Sequence of regexes. -/
def reSeqs (l : List RE) : RE := l.foldr .seq .eps

/-- Literal string. -/
def reLits (s : Str) : RE := reSeqs (s.map .lit)

/-- Class `\d`. -/
def reDigit : RE := .cls isDigitC

/-- Class `[A-Z]`. -/
def reUpper : RE := .cls isUpperC

/-- Metacharacter `.` without `re.DOTALL`: anything but a newline. -/
def reDotNoNL : RE := .cls (fun c => c ≠ '\n')

/-- Class `[\d,]`. -/
def reNumCls : RE := .cls (fun c => isDigitC c || c = ',')

/-- Class `[\d,.]`. -/
def reNumDotCls : RE := .cls (fun c => isDigitC c || c = ',' || c = '.')

/-- Regex `^[A-Z]{1,5}$` used by the stock classifiers of
`statement_parser.py`. -/
def reUsSymbol : RE := reSeqs [.bos, reUpper, reRepUpToG 4 reUpper, .eol]

/-- Regex `^\d{4}$` (computed as `is_my` in `_parse_stocks_sheet`, and
never used afterwards). -/
def reMySymbol : RE := reSeqs [.bos, reRepExact 4 reDigit, .eol]

/-- Regex `\(([^)]+)\)` extracting a parenthesised stock code. -/
def reParen : RE :=
  reSeqs [.lit '(', .grp 1 (rePlusG (.cls (fun c => c ≠ ')'))), .lit ')']

/-- Regex `\b(\d{4})\b.*?(\d+).*?([\d,.]+)` of `_fallback_parse`
(domestic-market candidates). -/
def reMyFind : RE :=
  reSeqs [.wb, .grp 1 (reRepExact 4 reDigit), .wb, .starL reDotNoNL,
    .grp 2 (rePlusG reDigit), .starL reDotNoNL, .grp 3 (rePlusG reNumDotCls)]

/-- Regex `\b([A-Z]{2,5})\b.*?(\d+).*?([\d,.]+)` of `_fallback_parse`
(foreign-market candidates). -/
def reUsFind : RE :=
  reSeqs [.wb, .grp 1 (.seq reUpper (.seq reUpper (reRepUpToG 3 reUpper))), .wb,
    .starL reDotNoNL, .grp 2 (rePlusG reDigit), .starL reDotNoNL,
    .grp 3 (rePlusG reNumDotCls)]

/-- Balance regexes `KEYWORD.*?([\d,]+\.?\d*)` of `_fallback_parse`. -/
def reBalance (kw : Str) : RE :=
  reSeqs [reLits kw, .starL reDotNoNL,
    .grp 1 (reSeqs [rePlusG reNumCls, reOptG (.lit '.'), .starG reDigit])]

/-! ### JSON slice extraction of `_parse_ai_response`

The two `re.DOTALL` searches of lines 283–292 are modelled by their direct
operational characterisation (checked against CPython): the fenced search
captures, after an opening fence, the shortest prefix from whose end
whitespace leads directly to a closing fence, with the leading `\s*`
taken greedily; the braced search takes the slice from the first opening
brace to the last closing brace after it. -/

/-- Opening fence of the first extraction regex. -/
def fenceKey : Str := "\x60\x60\x60json".toList

/-- Closing fence. -/
def tick3 : Str := "\x60\x60\x60".toList

/-- Greedy `\s*` skip. -/
def dropWsPy (s : Str) : Str := s.dropWhile isWsC

/-- Lazy capture scan: the capture ends at the first position from which
whitespace followed by a closing fence begins; `none` when no closing
fence follows. -/
def fenceScan : Str → Option Str
  | [] => none
  | c :: t =>
    if startsWithCs tick3 (dropWsPy (c :: t)) then some []
    else (fenceScan t).map (fun r => c :: r)

/-- Try successive occurrences of the opening fence, as `re.search`
advances its start position past a failed occurrence. -/
def extractFencedAux : ℕ → Str → Option Str
  | 0, _ => none
  | f + 1, s =>
    match splitAtKey fenceKey s with
    | none => none
    | some p =>
      match fenceScan (dropWsPy p.2) with
      | some cap => some cap
      | none => extractFencedAux f p.2

/-- Model of `re.search(r'```json\s*(.*?)\s*```', resp, re.DOTALL)`,
returning the captured group. -/
def extractFenced (s : Str) : Option Str := extractFencedAux (s.length + 1) s

/-- Suffix starting at the first occurrence of `x` (including it). -/
def dropBeforeC (x : Char) : Str → Option Str
  | [] => none
  | c :: t => if c = x then some (c :: t) else dropBeforeC x t

/-- Prefix up to and including the last occurrence of `x`. -/
def takeThroughLastC (x : Char) : Str → Option Str
  | [] => none
  | c :: t =>
    match takeThroughLastC x t with
    | some r => some (c :: r)
    | none => if c = x then some [c] else none

/-- Model of `re.search(r'\{.*\}', resp, re.DOTALL)`: the slice from the
first opening brace to the last closing brace after it. -/
def extractBraced (s : Str) : Option Str := do
  let t ← dropBeforeC '\x7b' s
  takeThroughLastC '\x7d' t

/-! ### The response normalizer and the heuristic fallback -/

/-- Normalized data dict assembled by `_parse_ai_response` and
`_fallback_parse` (an association list, like the Python dict, so that a
missing key — `total_assets` in the fallback — stays missing). -/
abbrev PData := List (Str × JVal)

/-- Result dict of the AI parsing layer.  `extractionMethod` is the
`ai_analysis.extraction_method` flag (empty on failure results, which
carry none); the debug-only `raw_response`/`note`/`timestamp` entries are
outside the model.  Failure messages keep the fixed text of the source
without the interpolated exception string. -/
structure PResult where
  success : Bool
  data : Option PData
  extractionMethod : Str
  errorMsg : Str

/-- Key `liquid_assets`. -/
def kLiquid : Str := "liquid_assets".toList

/-- Key `illiquid_assets`. -/
def kIlliquid : Str := "illiquid_assets".toList

/-- Key `stocks_my`. -/
def kStocksMy : Str := "stocks_my".toList

/-- Key `stocks_us`. -/
def kStocksUs : Str := "stocks_us".toList

/-- Key `gold`. -/
def kGold : Str := "gold".toList

/-- Key `cash_balance`. -/
def kCash : Str := "cash_balance".toList

/-- Key `total_assets`. -/
def kTotal : Str := "total_assets".toList

/-- Key `value` of an asset entry. -/
def kValue : Str := "value".toList

/-- JSON slice selection of `_parse_ai_response` (lines 283–292): the
fenced extraction first, else the braced extraction, else the whole
response text. -/
def aiJsonSlice (resp : Str) : Str :=
  match extractFenced resp with
  | some g => g
  | none =>
    match extractBraced resp with
    | some g => g
    | none => resp

/-- The success result `_parse_ai_response` builds from an object
payload: each expected field defaulted when absent, unexpected fields
ignored, every present field taken verbatim. -/
def mkAiSuccess (fs : List (Str × JVal)) : PResult :=
  ⟨true, some [
    (kLiquid, jget fs kLiquid (JVal.arr [])),
    (kIlliquid, jget fs kIlliquid (JVal.arr [])),
    (kStocksMy, jget fs kStocksMy (JVal.arr [])),
    (kStocksUs, jget fs kStocksUs (JVal.arr [])),
    (kGold, jget fs kGold (JVal.arr [])),
    (kCash, jget fs kCash (JVal.num 0)),
    (kTotal, jget fs kTotal (JVal.num 0))],
    "AI".toList, []⟩

/-- Model of `_parse_ai_response` (lines 279–332): extract the JSON slice
and parse it with `json.loads`; an object payload becomes the normalized
success dict.  A payload that parses to a non-object raises
`AttributeError` at the first `.get`, caught by the generic handler; a
payload that fails to parse raises `JSONDecodeError`. -/
def parseAiResponse (resp : Str) : PResult :=
  match jsonLoads (aiJsonSlice resp) with
  | some (JVal.obj fs) => mkAiSuccess fs
  | some _ => ⟨false, none, [], "处理AI响应时出错".toList⟩
  | none => ⟨false, none, [], "AI返回的数据格式错误".toList⟩

/-- Convert one fallback regex match into a stock dict; `none` models the
`except: continue` when a `float` conversion raises. -/
def fbStockFromCaps (exch : Str) (caps : Caps) : Option JVal := do
  let sym := capGet caps 1
  let sh ← pyFloat (capGet caps 2)
  let pr ← pyFloat (removeAllC ',' (capGet caps 3))
  some (JVal.obj [
    ("symbol".toList, JVal.str sym),
    ("name".toList, JVal.str sym),
    ("shares".toList, JVal.num sh),
    ("avgPrice".toList, JVal.num pr),
    ("currentPrice".toList, JVal.num 0),
    ("exchange".toList, JVal.str exch)])

/-- Domestic-market candidates of `_fallback_parse`: every regex match is
converted (no count cap). -/
def fallbackStocksMy (txt : Str) : List JVal :=
  (reFindAll reMyFind txt).filterMap (fbStockFromCaps "MY".toList)

/-- Foreign-market candidates of `_fallback_parse`: only the first ten
regex matches are considered (`us_stocks[:10]`). -/
def fallbackStocksUs (txt : Str) : List JVal :=
  ((reFindAll reUsFind txt).take 10).filterMap (fbStockFromCaps "US".toList)

/-- Ordered balance keywords of the four patterns of `_fallback_parse`. -/
def balanceKws : List Str :=
  ["余额".toList, "Balance".toList, "现金".toList, "Cash".toList]

/-- One balance pattern attempt: regex search, then `float` on the
de-comma'd capture; `none` when the pattern does not match or the
conversion raises (either way the loop continues). -/
def tryBalance (txt kw : Str) : Option ℚ :=
  match reSearch (reBalance kw) txt with
  | none => none
  | some r => pyFloat (removeAllC ',' (capGet r.1 1))

/-- The pattern loop: first successful pattern wins, zero if none does. -/
def fallbackBalance : List Str → Str → ℚ
  | [], _ => 0
  | kw :: ks, txt =>
    match tryBalance txt kw with
    | some v => v
    | none => fallbackBalance ks txt

/-- Model of `_fallback_parse` (lines 334–403): always a success result
flagged `Traditional Regex`; note the built dict has no `total_assets`
key. -/
def fallbackParse (txt : Str) : PResult :=
  ⟨true, some [
    (kLiquid, JVal.arr []),
    (kIlliquid, JVal.arr []),
    (kStocksMy, JVal.arr (fallbackStocksMy txt)),
    (kStocksUs, JVal.arr (fallbackStocksUs txt)),
    (kGold, JVal.arr []),
    (kCash, JVal.num (fallbackBalance balanceKws txt))],
    "Traditional Regex".toList, []⟩

/-! ### The provider chain and file dispatch -/

/-- Which provider credentials are configured (a nonempty environment
variable makes the corresponding `if self.*_api_key:` truthy). -/
structure ApiCfg where
  anthropicKey : Bool
  groqKey : Bool
  openaiKey : Bool

/-- Wire-level outcome of one provider call: `none` models a request
exception, timeout, or non-success status (the `_call_*_api` helper
returns `None` in those cases); `some body` a success status whose
extracted message text is `body`. -/
abbrev ProviderResp := Option Str

/-- Model of `_call_anthropic_api`/`_call_groq_api`/`_call_openai_api`:
on a success status the helper returns `_parse_ai_response(text)` — a
nonempty dict, hence truthy, whether or not it carries `success: True`. -/
def callProviderApi (resp : ProviderResp) : Option PResult :=
  resp.map parseAiResponse

/-- Model of `_analyze_with_ai` (lines 118–141): providers in fixed
order; any returned dict is passed through (`if result: return result`);
the heuristic fallback runs only when every configured provider's call
returned `None`. -/
def analyzeWithAi (cfg : ApiCfg) (aResp gResp oResp : ProviderResp) (txt : Str) :
    PResult :=
  match (if cfg.anthropicKey then callProviderApi aResp else none) with
  | some r => r
  | none =>
    match (if cfg.groqKey then callProviderApi gResp else none) with
    | some r => r
    | none =>
      match (if cfg.openaiKey then callProviderApi oResp else none) with
      | some r => r
      | none => fallbackParse txt

/-- Structured failure result. -/
def failResult (msg : Str) : PResult := ⟨false, none, [], msg⟩

/-- Model of `_parse_excel_with_ai`: `none` models a pandas exception
while reading the workbook; otherwise the sheets' concatenated text goes
to the analyzer. -/
def parseExcelWithAi (cfg : ApiCfg) (aResp gResp oResp : ProviderResp)
    (excelText : Option Str) : PResult :=
  match excelText with
  | none => failResult "Excel解析失败".toList
  | some t => analyzeWithAi cfg aResp gResp oResp t

/-- Model of `_parse_pdf_with_ai`: `none` models a missing `pdfplumber`
or an extraction exception (the bare `except` returns the library-missing
message); empty extracted text is its own failure; otherwise analyze. -/
def parsePdfWithAi (cfg : ApiCfg) (aResp gResp oResp : ProviderResp)
    (pdfText : Option Str) : PResult :=
  match pdfText with
  | none => failResult "PDF解析库未安装，请安装pdfplumber".toList
  | some t =>
    if (stripCs t).isEmpty then failResult "PDF中未找到文本内容".toList
    else analyzeWithAi cfg aResp gResp oResp t

/-- Model of `_parse_image_with_ai` (unimplemented in the source). -/
def parseImageWithAi : PResult := failResult "图片解析功能开发中".toList

/-- Model of `parse_file_with_ai` (lines 26–51): dispatch on the declared
file type; unsupported types and every inner failure produce a structured
error result, and the outer `except Exception` keeps any slip structured
as well. -/
def parseFileWithAi (cfg : ApiCfg) (aResp gResp oResp : ProviderResp)
    (fileType : Str) (excelText pdfText : Option Str) : PResult :=
  if fileType = "xlsx".toList || fileType = "xls".toList ||
      fileType = "excel".toList then
    parseExcelWithAi cfg aResp gResp oResp excelText
  else if fileType = "pdf".toList then
    parsePdfWithAi cfg aResp gResp oResp pdfText
  else if fileType = "jpg".toList || fileType = "jpeg".toList ||
      fileType = "png".toList || fileType = "image".toList then
    parseImageWithAi
  else failResult ("不支持的文件格式: ".toList ++ fileType)

/-! ### The aggregation step `generate_asset_report` -/

/-- Numeric coercion in Python arithmetic: JSON numbers and booleans add
and multiply; other values raise `TypeError`. -/
def jAsNum : JVal → Option ℚ
  | JVal.num q => some q
  | JVal.bool b => some (if b then 1 else 0)
  | _ => none

/-- Python `sum(x.get(key, 0) for x in v)`; `none` models the
`TypeError`/`AttributeError` raised on a non-list value, a non-dict
element, or a non-numeric field. -/
def sumByKeyList (key : Str) : List JVal → Option ℚ
  | [] => some 0
  | JVal.obj fs :: t => do
    let x ← jAsNum (jget fs key (JVal.num 0))
    let r ← sumByKeyList key t
    some (qAdd x r)
  | _ :: _ => none

/-- Sum of `x.get(key, 0)` over a JSON list value. -/
def sumByKey (key : Str) (v : JVal) : Option ℚ :=
  match v with
  | JVal.arr es => sumByKeyList key es
  | _ => none

/-- Python `sum(s.get('shares', 0) * s.get('avgPrice', 0) for s in v)`
over the elements of a holdings list. -/
def sumSharesCostList : List JVal → Option ℚ
  | [] => some 0
  | JVal.obj fs :: t => do
    let sh ← jAsNum (jget fs "shares".toList (JVal.num 0))
    let pr ← jAsNum (jget fs "avgPrice".toList (JVal.num 0))
    let r ← sumSharesCostList t
    some (qAdd (qMul sh pr) r)
  | _ :: _ => none

/-- Quantity-times-cost total of a holdings list value. -/
def sumSharesCost (v : JVal) : Option ℚ :=
  match v with
  | JVal.arr es => sumSharesCostList es
  | _ => none

/-- Python `round(x, 2)` modelled on exact rationals with half-even tie
breaking. -/
def round2 (q : ℚ) : ℚ :=
  let x := qMul q (mkRat 100 1)
  let n := Int.ediv x.num x.den
  let rem := x.num - n * (x.den : ℤ)
  let m : ℤ :=
    if 2 * rem < (x.den : ℤ) then n
    else if (x.den : ℤ) < 2 * rem then n + 1
    else if n % 2 = 0 then n else n + 1
  mkRat m 100

/-- Length of a JSON list value (the `len(...)` breakdown entries; the
report construction only reaches them with list values, the sums having
already succeeded). -/
def jArrLen : JVal → ℕ
  | JVal.arr es => es.length
  | _ => 0

/-- The summary/breakdown record built by `generate_asset_report`. -/
structure Report where
  totalAssets : ℚ
  liquidAssets : ℚ
  illiquidAssets : ℚ
  stockHoldingsMy : ℚ
  stockHoldingsUs : ℚ
  cashBalance : JVal
  liquidCount : ℕ
  illiquidCount : ℕ
  stocksMyCount : ℕ
  stocksUsCount : ℕ

/-- Outcome of `generate_asset_report`: `noData` models `return None`,
`raised` a `TypeError`/`AttributeError` escaping from the aggregation
generators (the function has no handler of its own). -/
inductive GenResult where
  | raised
  | noData
  | report (r : Report)

/-- Model of `generate_asset_report` (lines 405–440).  Note the computed
grand total sums only the liquid, illiquid and two stock-holdings
totals; `cash_balance` is carried verbatim into the summary but not
added, and the `gold` lots are not read at all. -/
def genAssetReport (pr : PResult) : GenResult :=
  if pr.success = false then GenResult.noData
  else
    match pr.data with
    | none => GenResult.raised
    | some d =>
      let vLiquid := jget d kLiquid (JVal.arr [])
      let vIlliquid := jget d kIlliquid (JVal.arr [])
      let vMy := jget d kStocksMy (JVal.arr [])
      let vUs := jget d kStocksUs (JVal.arr [])
      match sumByKey kValue vLiquid, sumByKey kValue vIlliquid,
          sumSharesCost vMy, sumSharesCost vUs with
      | some tl, some ti, some tmy, some tus =>
        GenResult.report
          ⟨round2 (qAdd (qAdd (qAdd tl ti) tmy) tus), round2 tl, round2 ti, round2 tmy,
            round2 tus, jget d kCash (JVal.num 0), jArrLen vLiquid,
            jArrLen vIlliquid, jArrLen vMy, jArrLen vUs⟩
      | _, _, _, _ => GenResult.raised

/-- Sum of `weight × purchasePrice` over the metal lots, the payload-side
reading of the spec's `Σ(metal_lots.weight × metal_lots.unit_cost)`. -/
def sumWeightCostList : List JVal → Option ℚ
  | [] => some 0
  | JVal.obj fs :: t => do
    let w ← jAsNum (jget fs "weight".toList (JVal.num 0))
    let pr ← jAsNum (jget fs "purchasePrice".toList (JVal.num 0))
    let r ← sumWeightCostList t
    some (qAdd (qMul w pr) r)
  | _ :: _ => none

/-- Metal total of a JSON list value. -/
def sumWeightCost (v : JVal) : Option ℚ :=
  match v with
  | JVal.arr es => sumWeightCostList es
  | _ => none

/-- Modelled from the spec (§3 invariant): the claimed grand-total
formula `Σ(quantity × average_cost) + Σ(liquid.value) + cash_balance +
Σ(illiquid.value) + Σ(weight × unit_cost)`, recomputed from the line
items and rounded to two decimals at the end. -/
def specGrandTotal (d : PData) : Option ℚ := do
  let tmy ← sumSharesCost (jget d kStocksMy (JVal.arr []))
  let tus ← sumSharesCost (jget d kStocksUs (JVal.arr []))
  let tl ← sumByKey kValue (jget d kLiquid (JVal.arr []))
  let cash ← jAsNum (jget d kCash (JVal.num 0))
  let ti ← sumByKey kValue (jget d kIlliquid (JVal.arr []))
  let tm ← sumWeightCost (jget d kGold (JVal.arr []))
  some (round2 (qAdd (qAdd (qAdd (qAdd (qAdd tmy tus) tl) cash) ti) tm))

/-! ### The tabular extractor `statement_parser.py`

The pandas/pdfplumber reading layer is abstracted away: each modelled
sheet/table arrives as its already-stringified cells (`none` for a
NaN/None cell), which is exactly the state the modelled loops start
from.  A `none` environment models the reading layer raising. -/

/-- A stock object of the tabular extractor. -/
structure StockObj where
  symbol : Str
  name : Str
  shares : ℚ
  avgPrice : ℚ
  currentPrice : ℚ
  exchange : Str

/-- A liquid/illiquid asset entry. -/
structure AssetItem where
  name : Str
  value : ℚ
  category : Str
  notes : Str

/-- A gold lot entry. -/
structure GoldItem where
  name : Str
  weight : ℚ
  buyPrice : ℚ
  notes : Str

/-- One row of a stocks sheet as seen by the loop of
`_parse_stocks_sheet` at line 161: the name/symbol cell and the
`market/qty` and `price/cost` cells. -/
structure StockRow where
  cell0 : Option Str
  cell1 : Option Str
  cell2 : Option Str

/-- Classification test `bool(re.search(r'^[A-Z]{1,5}$', symbol) and
len(symbol) <= 5)` of `_parse_stocks_sheet` line 208. -/
def isUsSymbol (sym : Str) : Bool :=
  (reSearch reUsSymbol sym).isSome && sym.length ≤ 5

/-- Classification test `bool(re.search(r'^\d{4}$', symbol))` of line
209 — computed by the source and then never used. -/
def isMySymbol (sym : Str) : Bool := (reSearch reMySymbol sym).isSome

/-- Symbol and display name from the name cell: the first parenthesised
group if present (`re.search(r'\(([^)]+)\)')`), else the whole cell. -/
def symbolOfCell (s : Str) : Str × Str :=
  match reSearch reParen s with
  | some r => (capGet r.1 1, stripCs ((splitOnC '(' s).headI))
  | none => (s, s)

/-- Number after the first slash of a `market/qty` style cell, zero when
the cell is missing, has no slash, or its piece does not convert. -/
def slashSecond (cell : Option Str) : ℚ :=
  match cell with
  | none => 0
  | some s =>
    if occursIn "/".toList s then
      match (splitOnC '/' s).get? 1 with
      | some p => (pyFloat p).getD 0
      | none => 0
    else 0

/-- Loop body of `_parse_stocks_sheet` (lines 161–225): skip NaN and
total rows, read symbol and the two slash-numbers, drop rows with
non-positive quantity or cost, and place each retained holding by the
`is_us` test alone — a symbol failing both shape tests lands in the
domestic list. -/
def stocksRowStep (acc : List StockObj × List StockObj) (row : StockRow) :
    List StockObj × List StockObj :=
  match row.cell0 with
  | none => acc
  | some raw =>
    if occursIn "合计".toList raw || occursIn "总计".toList raw then acc
    else
      let sp := symbolOfCell (stripCs raw)
      let shares := slashSecond row.cell1
      let avgPrice := slashSecond row.cell2
      if shares ≤ 0 || avgPrice ≤ 0 then acc
      else
        let exch := if isUsSymbol sp.1 then "US".toList else "MY".toList
        let stock : StockObj := ⟨sp.1, sp.2, shares, avgPrice, 0, exch⟩
        if isUsSymbol sp.1 then (acc.1, acc.2 ++ [stock])
        else (acc.1 ++ [stock], acc.2)

/-- Row loop of `_parse_stocks_sheet`, yielding the domestic and foreign
holding lists of one sheet. -/
def parseStocksRows (rows : List StockRow) : List StockObj × List StockObj :=
  rows.foldl stocksRowStep ([], [])

/-- One row of an assets sheet: name cell and value cell. -/
structure AssetRow where
  cell0 : Option Str
  cell1 : Option Str

/-- Loop body of `_parse_assets_sheet` (lines 93–134): skip NaN-name
rows, coerce the value (skipping on failure), drop non-positive values,
classify the category by name keywords and route retirement-style names
to the illiquid side. -/
def assetRowStep (acc : List AssetItem × List AssetItem) (row : AssetRow) :
    List AssetItem × List AssetItem :=
  match row.cell0 with
  | none => acc
  | some raw =>
    let nm := stripCs raw
    match pyFloat (row.cell1.getD "0".toList) with
    | none => acc
    | some v =>
      if v ≤ 0 then acc
      else
        let category :=
          if occursIn "股票".toList nm || occursIn "stock".toList (lowerCs nm) then
            "stocks".toList
          else if occursIn "金".toList nm || occursIn "gold".toList (lowerCs nm) then
            "gold".toList
          else if occursIn "ASNB".toList nm || occursIn "基金".toList nm then
            "investment".toList
          else "cash".toList
        let isIlliquid := occursIn "KWSP".toList nm || occursIn "EPF".toList nm ||
          occursIn "公积金".toList nm
        let item : AssetItem := ⟨nm, v, category, []⟩
        if isIlliquid then (acc.1, acc.2 ++ [item]) else (acc.1 ++ [item], acc.2)

/-- Row loop of `_parse_assets_sheet`, yielding liquid and illiquid
entries. -/
def parseAssetRows (rows : List AssetRow) : List AssetItem × List AssetItem :=
  rows.foldl assetRowStep ([], [])

/-- One row of a gold sheet: name, weight, price and cost cells. -/
structure GoldRow where
  cell0 : Option Str
  cell1 : Option Str
  cell2 : Option Str
  cell3 : Option Str

/-- Loop body of `_parse_gold_sheet` (lines 238–283): skip NaN and total
rows; a weight or price cell that fails to convert skips the row
(`continue`), a failing cost cell is ignored (`pass`); non-positive
weight or derived unit price drops the row. -/
def goldRowStep (acc : List GoldItem) (row : GoldRow) : List GoldItem :=
  match row.cell0 with
  | none => acc
  | some raw =>
    if occursIn "合计".toList raw || occursIn "总计".toList raw then acc
    else
      let nm := stripCs raw
      let weightStep : Option ℚ :=
        match row.cell1 with
        | none => some 0
        | some s => pyFloat s
      match weightStep with
      | none => acc
      | some weight =>
        let priceStep : Option ℚ :=
          match row.cell2 with
          | none => some 0
          | some s =>
            match pyFloat s with
            | none => none
            | some tc => some (if weight > 0 then qDiv tc weight else 0)
        match priceStep with
        | none => acc
        | some bp1 =>
          let buyPrice :=
            match row.cell3 with
            | none => bp1
            | some s =>
              match pyFloat s with
              | none => bp1
              | some tc => if weight > 0 then qDiv tc weight else bp1
          if weight ≤ 0 || buyPrice ≤ 0 then acc
          else acc ++ [⟨nm, weight, buyPrice, []⟩]

/-- Row loop of `_parse_gold_sheet`. -/
def parseGoldRows (rows : List GoldRow) : List GoldItem :=
  rows.foldl goldRowStep []

/-- The data record assembled by the tabular extractor. -/
structure SData where
  liquidAssets : List AssetItem
  illiquidAssets : List AssetItem
  stocksMy : List StockObj
  stocksUs : List StockObj
  gold : List GoldItem

/-- Result record of the tabular extractor. -/
structure SResult where
  success : Bool
  data : Option SData
  errorMsg : Str

/-- Structured failure of the tabular extractor. -/
def sFail (msg : Str) : SResult := ⟨false, none, msg⟩

/-- One workbook sheet as seen after reading: its name and its rows in
the three row shapes (only the shape selected by the name keywords is
consumed). -/
structure SheetIn where
  name : Str
  assetRows : List AssetRow
  stockRows : List StockRow
  goldRows : List GoldRow

/-- Sheet-routing loop of `parse_excel` (lines 61–74): keyword match on
the sheet name picks the sheet parser whose results extend the record;
unmatched sheets are ignored. -/
def excelSheetStep (acc : SData) (sh : SheetIn) : SData :=
  if occursIn "资产分配".toList sh.name || occursIn "资产".toList sh.name then
    let p := parseAssetRows sh.assetRows
    ⟨acc.liquidAssets ++ p.1, acc.illiquidAssets ++ p.2, acc.stocksMy,
      acc.stocksUs, acc.gold⟩
  else if occursIn "股票".toList sh.name || occursIn "stock".toList (lowerCs sh.name) then
    let p := parseStocksRows sh.stockRows
    ⟨acc.liquidAssets, acc.illiquidAssets, acc.stocksMy ++ p.1,
      acc.stocksUs ++ p.2, acc.gold⟩
  else if occursIn "金".toList sh.name || occursIn "gold".toList (lowerCs sh.name) then
    ⟨acc.liquidAssets, acc.illiquidAssets, acc.stocksMy, acc.stocksUs,
      acc.gold ++ parseGoldRows sh.goldRows⟩
  else acc

/-- Model of `parse_excel` (lines 41–82): `none` models the workbook
reader raising (caught into a structured error); the sheet parsers
themselves never raise (each catches internally and returns empty). -/
def parseExcelSP (wb : Option (List SheetIn)) : SResult :=
  match wb with
  | none => sFail "解析失败".toList
  | some sheets =>
    ⟨true, some (sheets.foldl excelSheetStep ⟨[], [], [], [], []⟩), []⟩

/-- One CSV dataframe row with its detected symbol/quantity/price cells
(`none` for NaN or an absent column). -/
structure DfRow where
  symbolCell : Str
  qtyCell : Option Str
  priceCell : Option Str

/-- A read dataframe: whether a symbol column was detected (keyword scan
over the header), and the rows. -/
structure DFrame where
  hasSymbolCol : Bool
  rows : List DfRow

/-- Loop body of `_parse_stocks_from_dataframe` (lines 614–643): skip
empty/`nan` symbols, coerce quantity and price (a raising coercion skips
the whole row), drop non-positive rows, classify by `is_us` alone. -/
def dfRowStep (acc : List StockObj × List StockObj) (row : DfRow) :
    List StockObj × List StockObj :=
  let sym := stripCs row.symbolCell
  if sym.isEmpty || sym = "nan".toList then acc
  else
    let qtyStep : Option ℚ :=
      match row.qtyCell with
      | none => some 0
      | some s => pyFloat s
    match qtyStep with
    | none => acc
    | some qty =>
      let priceStep : Option ℚ :=
        match row.priceCell with
        | none => some 0
        | some s => pyFloat s
      match priceStep with
      | none => acc
      | some price =>
        if qty ≤ 0 || price ≤ 0 then acc
        else
          let isUs := (reSearch reUsSymbol sym).isSome
          let exch := if isUs then "US".toList else "MY".toList
          let stock : StockObj := ⟨sym, sym, qty, price, 0, exch⟩
          if isUs then (acc.1, acc.2 ++ [stock]) else (acc.1 ++ [stock], acc.2)

/-- Model of `_parse_stocks_from_dataframe`. -/
def parseStocksFromDf (df : DFrame) : List StockObj × List StockObj :=
  if df.hasSymbolCol then df.rows.foldl dfRowStep ([], [])
  else ([], [])

/-- Model of `parse_csv` (lines 344–388): the outer `none` models a
raising read, the inner `none` a dataframe `None` after all encodings
failed. -/
def parseCsvSP (env : Option (Option DFrame)) : SResult :=
  match env with
  | none => sFail "CSV解析失败".toList
  | some none => sFail "无法读取CSV文件，编码不支持".toList
  | some (some df) =>
    let p := parseStocksFromDf df
    ⟨true, some ⟨[], [], p.1, p.2, []⟩, []⟩

/-- A PDF table, rows of stringified cells. -/
abbrev Table := List (List (Option Str))

/-- An extracted PDF document: concatenated page text and tables. -/
structure PdfDoc where
  text : Str
  tables : List Table

/-- Broker identification of `_identify_broker`. -/
def identifyBroker (text : Str) : Str :=
  let tl := lowerCs text
  if occursIn "moomoo".toList tl || occursIn "富途".toList text then "moomoo".toList
  else if occursIn "webull".toList tl || occursIn "微牛".toList text then "webull".toList
  else if occursIn "interactive brokers".toList tl || occursIn "ibkr".toList tl then
    "interactive_brokers".toList
  else "generic".toList

/-- Python `str(cell).replace('.', '').replace(',', '').isdigit()` used
by the MOOMOO cell scan. -/
def moomooNumericCell (s : Str) : Bool :=
  isDigitStr (removeAllC ',' (removeAllC '.' s))

/-- Cell scan of `_parse_moomoo_pdf` (lines 439–448): the first numeric
cell below 10000 becomes the quantity, the next positive numeric cell the
price. -/
def moomooScanCells (cells : List (Option Str)) : ℚ × ℚ :=
  cells.foldl
    (fun acc cell =>
      match cell with
      | none => acc
      | some s =>
        if moomooNumericCell s then
          match pyFloat (removeAllC ',' s) with
          | none => acc
          | some v =>
            if 0 < v && v < 10000 && acc.1 = 0 then (v, acc.2)
            else if 0 < v && acc.2 = 0 then (acc.1, v)
            else acc
        else acc)
    (0, 0)

/-- Row loop of `_parse_moomoo_pdf` over one table body. -/
def moomooRowStep (acc : List StockObj × List StockObj) (row : List (Option Str)) :
    List StockObj × List StockObj :=
  if row.length < 3 then acc
  else
    match row.headI with
    | none => acc
    | some raw =>
      let sym := stripCs raw
      if sym.isEmpty || sym = "None".toList then acc
      else
        let qa := moomooScanCells row
        if 0 < qa.1 && 0 < qa.2 then
          let isUs := (reSearch reUsSymbol sym).isSome
          let exch := if isUs then "US".toList else "MY".toList
          let stock : StockObj := ⟨sym, sym, qa.1, qa.2, 0, exch⟩
          if isUs then (acc.1, acc.2 ++ [stock]) else (acc.1 ++ [stock], acc.2)
        else acc

/-- Header test of `_parse_moomoo_pdf` (lines 419–422). -/
def moomooHeaderOk (table : Table) : Bool :=
  match table.headI with
  | header => header.any (fun cell =>
      match cell with
      | none => false
      | some s => occursIn "股票".toList s || occursIn "Symbol".toList s ||
          occursIn "代码".toList s)

/-- Model of `_parse_moomoo_pdf` (lines 403–487): stock rows from
recognisable tables, plus a balance entry from the text. -/
def parseMoomooPdf (doc : PdfDoc) : SData :=
  let stocks := doc.tables.foldl
    (fun acc table =>
      if table.length < 2 then acc
      else if !moomooHeaderOk table then acc
      else table.tail.foldl moomooRowStep acc)
    ([], [])
  let liquid : List AssetItem :=
    match reSearch (reBalance "账户余额".toList) doc.text with
    | none => []
    | some r =>
      match pyFloat (removeAllC ',' (capGet r.1 1)) with
      | none => []
      | some v =>
        if 0 < v then
          [⟨"MOOMOO账户余额".toList, v, "cash".toList, "现金余额".toList⟩]
        else []
  ⟨liquid, [], stocks.1, stocks.2, []⟩

/-- Python `str(cell).replace('.', '').isdigit()` used by the Webull
parser (no comma removal). -/
def webullNumericCell (s : Str) : Bool := isDigitStr (removeAllC '.' s)

/-- Row loop of `_parse_webull_pdf` over one table body. -/
def webullRowStep (acc : List StockObj × List StockObj) (row : List (Option Str)) :
    List StockObj × List StockObj :=
  if row.length < 4 then acc
  else
    match row.headI with
    | none => acc
    | some raw =>
      let sym := stripCs raw
      if sym.isEmpty then acc
      else
        let qty : ℚ :=
          match row.get? 1 with
          | some (some s) => if webullNumericCell s then (pyFloat s).getD 0 else 0
          | _ => 0
        let price : ℚ :=
          match row.get? 2 with
          | some (some s) => if webullNumericCell s then (pyFloat s).getD 0 else 0
          | _ => 0
        if 0 < qty && 0 < price then
          let isUs := (reSearch reUsSymbol sym).isSome
          let exch := if isUs then "US".toList else "MY".toList
          let stock : StockObj := ⟨sym, sym, qty, price, 0, exch⟩
          if isUs then (acc.1, acc.2 ++ [stock]) else (acc.1 ++ [stock], acc.2)
        else acc

/-- Model of `_parse_webull_pdf` (lines 489–536). -/
def parseWebullPdf (doc : PdfDoc) : SData :=
  let stocks := doc.tables.foldl
    (fun acc table =>
      if table.length < 2 then acc
      else table.tail.foldl webullRowStep acc)
    ([], [])
  ⟨[], [], stocks.1, stocks.2, []⟩

/-- Regex `\b([A-Z]{1,5})\b` of the generic PDF parser. -/
def reUsLoose : RE :=
  reSeqs [.wb, .grp 1 (.seq reUpper (reRepUpToG 4 reUpper)), .wb]

/-- Positive numbers among the cells after position `i` of a row
(lines 570–578). -/
def genericNumbersAfter (cells : List (Option Str)) : List ℚ :=
  cells.foldr
    (fun cell acc =>
      match cell with
      | none => acc
      | some s =>
        match pyFloat (removeAllC ',' s) with
        | none => acc
        | some v => if 0 < v then v :: acc else acc)
    []

/-- Cell loop of `_parse_generic_pdf` over one row: every cell whose text
contains a loose foreign-symbol match and is followed by at least two
positive numbers contributes a foreign holding. -/
def genericRowStocks : List (Option Str) → List StockObj
  | [] => []
  | cell :: rest =>
    let here : List StockObj :=
      match cell with
      | none => []
      | some s =>
        match reSearch reUsLoose (stripCs s) with
        | none => []
        | some r =>
          let sym := capGet r.1 1
          match genericNumbersAfter rest with
          | n1 :: n2 :: _ => [⟨sym, sym, n1, n2, 0, "US".toList⟩]
          | _ => []
    here ++ genericRowStocks rest

/-- Model of `_parse_generic_pdf` (lines 538–590). -/
def parseGenericPdf (doc : PdfDoc) : SData :=
  let us := doc.tables.foldl
    (fun acc table =>
      if table.length < 2 then acc
      else table.foldl
        (fun acc2 row =>
          if row.length < 2 then acc2 else acc2 ++ genericRowStocks row)
        acc)
    []
  ⟨[], [], [], us, []⟩

/-- Model of `parse_pdf` (lines 291–342): `none` models the extraction
raising; otherwise the broker-specific parser fills the record. -/
def parsePdfSP (env : Option PdfDoc) : SResult :=
  match env with
  | none => sFail "PDF解析失败".toList
  | some doc =>
    let broker := identifyBroker doc.text
    let d :=
      if broker = "moomoo".toList then parseMoomooPdf doc
      else if broker = "webull".toList then parseWebullPdf doc
      else parseGenericPdf doc
    ⟨true, some d, []⟩

/-- Extension extraction `file_path.lower().split('.')[-1]` of
`parse_file`. -/
def getExt (path : Str) : Str := (splitOnC '.' (lowerCs path)).getLastD []

/-- Model of `parse_file` (lines 15–39): dispatch on the lowercased
extension; unsupported extensions produce a structured error, and the
outer `except Exception` keeps any slip structured as well. -/
def parseFileSP (path : Str) (excelEnv : Option (List SheetIn))
    (csvEnv : Option (Option DFrame)) (pdfEnv : Option PdfDoc) : SResult :=
  let ext := getExt path
  if ext = "xlsx".toList || ext = "xls".toList then parseExcelSP excelEnv
  else if ext = "csv".toList then parseCsvSP csvEnv
  else if ext = "pdf".toList then parsePdfSP pdfEnv
  else sFail ("不支持的文件格式: ".toList ++ ext)

/-! ## Concrete inputs used by the claim instances -/

/-- Eleven domestic-style candidate lines for the heuristic matcher. -/
def myElevenTxt : Str := String.toList
  "1155 1 1\n2155 1 1\n3155 1 1\n4155 1 1\n5155 1 1\n6155 1 1\n7155 1 1\n8155 1 1\n9155 1 1\n1255 1 1\n1355 1 1"

/-- Eleven foreign-style candidate lines. -/
def usElevenTxt : Str := String.toList
  "AB 1 1\nCD 1 1\nEF 1 1\nGH 1 1\nIJ 1 1\nKL 1 1\nMN 1 1\nOP 1 1\nQR 1 1\nST 1 1\nUV 1 1"

/-- A provider payload carrying only a cash balance. -/
def cashOnlyResp : Str := "\x7b\"cash_balance\": 100\x7d".toList

/-- A provider response without any JSON object in it. -/
def noJsonResp : Str := "hello".toList

/-- The spec's heuristic balance scenario text. -/
def balanceTxt : Str := "Balance: RM 5,000.00".toList

/-! ## Claim theorems -/

/-- Claim C10: in heuristic fallback mode at most the first ten
foreign-market regex matches are converted into `stocks_us` holdings
(`us_stocks[:10]` discards the rest silently), while domestic-market
matches are subject to no count cap: a text with eleven foreign matches
yields ten holdings, one with eleven domestic matches yields eleven. -/
theorem fallbackForeignCapTen :
    (∀ txt : Str, (fallbackStocksUs txt).length ≤ 10) ∧
    (reFindAll reUsFind usElevenTxt).length = 11 ∧
    (fallbackStocksUs usElevenTxt).length = 10 ∧
    (fallbackStocksMy myElevenTxt).length = 11 := by
  refine ⟨fun txt => ?_, by decide, by decide, by decide⟩
  unfold fallbackStocksUs
  exact le_trans (List.length_filterMap_le _ _) (List.length_take_le _ _)

/-- Claim C8: with no provider credential configured, `_analyze_with_ai`
returns the heuristic fallback's result, which always carries
`success = true` and informs the caller through the
`extraction_method = 'Traditional Regex'` flag; with zero heuristic
candidates the snapshot is empty-but-valid (empty sequences, zero
balance). -/
theorem noProviderHeuristicFallback (cfg : ApiCfg) (a g o : ProviderResp)
    (txt : Str) (h1 : cfg.anthropicKey = false) (h2 : cfg.groqKey = false)
    (h3 : cfg.openaiKey = false) :
    analyzeWithAi cfg a g o txt = fallbackParse txt ∧
    (fallbackParse txt).success = true ∧
    (fallbackParse txt).extractionMethod = "Traditional Regex".toList ∧
    fallbackParse [] = ⟨true, some [
      (kLiquid, JVal.arr []), (kIlliquid, JVal.arr []),
      (kStocksMy, JVal.arr []), (kStocksUs, JVal.arr []),
      (kGold, JVal.arr []), (kCash, JVal.num 0)],
      "Traditional Regex".toList, []⟩ := by
  refine ⟨?_, rfl, rfl, rfl⟩
  simp [analyzeWithAi, h1, h2, h3]

/-- Closed instance of `noProviderHeuristicFallback` at the all-unset
configuration and the empty text. -/
theorem noProviderHeuristicFallbackWitness :
    analyzeWithAi ⟨false, false, false⟩ none none none [] = fallbackParse [] ∧
    (fallbackParse []).extractionMethod = "Traditional Regex".toList :=
  ⟨(noProviderHeuristicFallback ⟨false, false, false⟩ none none none [] rfl rfl
      rfl).1,
    (noProviderHeuristicFallback ⟨false, false, false⟩ none none none [] rfl rfl
      rfl).2.2.1⟩

/-- Claim C9: the balance loop of `_fallback_parse` tries its fixed
ordered keyword patterns and stops at the first that matches and
converts; on `Balance: RM 5,000.00` the extracted cash balance is
`5000.00`. -/
theorem balanceFirstPatternWins (ks1 ks2 : List Str) (kw txt : Str) (v : ℚ)
    (h1 : ∀ k ∈ ks1, tryBalance txt k = none)
    (h2 : tryBalance txt kw = some v) :
    fallbackBalance (ks1 ++ kw :: ks2) txt = v ∧
    fallbackBalance balanceKws balanceTxt = 5000 ∧
    (match (fallbackParse balanceTxt).data with
      | some d => jget d kCash JVal.null
      | none => JVal.null) = JVal.num 5000 := by
  refine ⟨?_, by decide, rfl⟩
  induction ks1 with
  | nil => simp [fallbackBalance, h2]
  | cons k ks ih =>
    have hk := h1 k (by simp)
    simp only [List.cons_append, fallbackBalance, hk]
    exact ih fun k2 hk2 => h1 k2 (by simp [hk2])

/-- Closed instance of `balanceFirstPatternWins`: on the scenario text
the first keyword misses and the second (`Balance`) wins. -/
theorem balanceFirstPatternWinsWitness :
    fallbackBalance (["余额".toList] ++ "Balance".toList ::
      ["现金".toList, "Cash".toList]) balanceTxt = 5000 :=
  (balanceFirstPatternWins ["余额".toList] ["现金".toList, "Cash".toList]
    "Balance".toList balanceTxt 5000 (by decide) (by decide)).1

/-- Claim C2 counterexample: all three providers are configured, the
first provider's success-status response `hello` contains no parseable
JSON, and the next provider's response would parse — yet the first
provider's failure dict is returned as the top-level result, because
`if result: return result` is taken on any returned dict.  The claimed
advance to the next provider does not happen. -/
theorem malformedResponseNotAdvanced :
    analyzeWithAi ⟨true, true, true⟩ (some noJsonResp) (some cashOnlyResp)
      (some cashOnlyResp) [] = parseAiResponse noJsonResp ∧
    (parseAiResponse noJsonResp).success = false ∧
    (parseAiResponse cashOnlyResp).success = true :=
  ⟨rfl, rfl, rfl⟩

/-- Claim C2 (amended): the chain advances exactly on transport-level
failures — a provider call that returned `None` (request exception,
timeout, non-success status) is skipped like an unconfigured one, while
any success-status response body, parseable or not, is returned as the
top-level result from the first configured provider that produced one. -/
theorem providerChainAdvanceRule (cfg : ApiCfg) (g o : ProviderResp)
    (txt body : Str) (hk : cfg.anthropicKey = true) :
    analyzeWithAi cfg (some body) g o txt = parseAiResponse body ∧
    analyzeWithAi cfg none g o txt =
      analyzeWithAi ⟨false, cfg.groqKey, cfg.openaiKey⟩ none g o txt := by
  constructor
  · simp [analyzeWithAi, hk, callProviderApi]
  · simp [analyzeWithAi, hk, callProviderApi]

/-- Closed instance of `providerChainAdvanceRule`. -/
theorem providerChainAdvanceRuleWitness :
    analyzeWithAi ⟨true, true, false⟩ (some noJsonResp) (some cashOnlyResp)
      none [] = parseAiResponse noJsonResp ∧
    analyzeWithAi ⟨true, true, false⟩ none (some cashOnlyResp) none [] =
      analyzeWithAi ⟨false, true, false⟩ none (some cashOnlyResp) none [] :=
  providerChainAdvanceRule ⟨true, true, false⟩ (some cashOnlyResp) none []
    noJsonResp rfl

/-! ## Invariants of the stocks-sheet row loop (for claims C3 and C5) -/

/-- Shape of every holding the sheet loop puts in the domestic list:
classified there by the failing `is_us` test alone, with positive
numbers. -/
def myStockOk (st : StockObj) : Bool :=
  !(isUsSymbol st.symbol) && st.exchange == "MY".toList &&
    decide (0 < st.shares) && decide (0 < st.avgPrice)

/-- Shape of every holding the sheet loop puts in the foreign list. -/
def usStockOk (st : StockObj) : Bool :=
  isUsSymbol st.symbol && st.exchange == "US".toList &&
    decide (0 < st.shares) && decide (0 < st.avgPrice)

/-- One step of the sheet loop preserves the two shape invariants. -/
theorem stocksRowStep_all (acc : List StockObj × List StockObj) (row : StockRow)
    (h1 : acc.1.all myStockOk = true) (h2 : acc.2.all usStockOk = true) :
    ((stocksRowStep acc row).1.all myStockOk) = true ∧
    ((stocksRowStep acc row).2.all usStockOk) = true := by
  simp only [stocksRowStep]
  split
  · exact ⟨h1, h2⟩
  · split
    · exact ⟨h1, h2⟩
    · split
      · exact ⟨h1, h2⟩
      · rename_i hpos
        rw [Bool.not_eq_true, Bool.or_eq_false_iff] at hpos
        have hsh := lt_of_not_le (of_decide_eq_false hpos.1)
        have hav := lt_of_not_le (of_decide_eq_false hpos.2)
        split
        · rename_i hus
          refine ⟨h1, ?_⟩
          rw [List.all_append, Bool.and_eq_true]
          refine ⟨h2, ?_⟩
          simp [usStockOk, hus, hsh, hav]
        · rename_i hus
          rw [Bool.not_eq_true] at hus
          refine ⟨?_, h2⟩
          rw [List.all_append, Bool.and_eq_true]
          refine ⟨h1, ?_⟩
          simp [myStockOk, hus, hsh, hav]

/-- The whole sheet loop maintains the two shape invariants. -/
theorem parseStocksRows_all (rows : List StockRow) :
    ((parseStocksRows rows).1.all myStockOk) = true ∧
    ((parseStocksRows rows).2.all usStockOk) = true := by
  suffices h : ∀ acc : List StockObj × List StockObj,
      acc.1.all myStockOk = true → acc.2.all usStockOk = true →
      ((rows.foldl stocksRowStep acc).1.all myStockOk) = true ∧
      ((rows.foldl stocksRowStep acc).2.all usStockOk) = true from
    h ([], []) rfl rfl
  induction rows with
  | nil => exact fun acc h1 h2 => ⟨h1, h2⟩
  | cons r rs ih =>
    intro acc h1 h2
    have hstep := stocksRowStep_all acc r h1 h2
    exact ih (stocksRowStep acc r) hstep.1 hstep.2

/-- A stocks-sheet row carrying the mixed-shape symbol `abc123` with
positive quantity and cost. -/
def abcRow : StockRow :=
  ⟨some "abc123".toList, some "mv/10".toList, some "pc/2".toList⟩

/-- Claim C3 counterexample: `abc123` matches neither symbol shape, yet
`_parse_stocks_sheet` does not drop it — the holding is retained, in the
domestic list, with exchange `MY`. -/
theorem mixedSymbolRetained :
    (parseStocksRows [abcRow]).1 =
      [⟨"abc123".toList, "abc123".toList, 10, 2, 0, "MY".toList⟩] ∧
    (parseStocksRows [abcRow]).2 = [] ∧
    isUsSymbol "abc123".toList = false ∧ isMySymbol "abc123".toList = false :=
  ⟨rfl, rfl, rfl, rfl⟩

/-- Claim C3 (amended): classification maps an exactly-4-digit symbol to
the domestic market and a 1–5-uppercase-letter symbol to the foreign
market, but a retained symbol matching neither shape is not dropped: the
loop places every holding failing the foreign test — `1155` and
`abc123` alike — in the domestic list (the domestic-shape test `is_my`
is computed and never consulted). -/
theorem symbolShapeClassification (rows : List StockRow) :
    ((parseStocksRows rows).2.all (fun st => isUsSymbol st.symbol) = true) ∧
    ((parseStocksRows rows).1.all (fun st => !isUsSymbol st.symbol) = true) ∧
    isMySymbol "1155".toList = true ∧ isUsSymbol "1155".toList = false ∧
    isUsSymbol "TSLA".toList = true ∧ isMySymbol "TSLA".toList = false ∧
    isUsSymbol "abc123".toList = false ∧ isMySymbol "abc123".toList = false := by
  obtain ⟨hmy, hus⟩ := parseStocksRows_all rows
  rw [List.all_eq_true] at hmy hus
  refine ⟨?_, ?_, rfl, rfl, rfl, rfl, rfl, rfl⟩
  · rw [List.all_eq_true]
    intro st hst
    have := hus st hst
    simp only [usStockOk, Bool.and_eq_true] at this
    exact this.1.1.1
  · rw [List.all_eq_true]
    intro st hst
    have := hmy st hst
    simp only [myStockOk, Bool.and_eq_true] at this
    exact this.1.1.1

/-- A payload whose domestic list carries a holding with negative
quantity. -/
def negSharesResp : Str :=
  "\x7b\"stocks_my\": [\x7b\"symbol\": \"1155\", \"shares\": -5, \"avgPrice\": 2\x7d]\x7d".toList

/-- Claim C5 counterexample: the raw payload holds a `shares: -5`
holding; `_parse_ai_response` accepts the payload and returns that
holding verbatim in the normalized output instead of excluding it. -/
theorem negativeHoldingPropagated :
    (parseAiResponse negSharesResp).success = true ∧
    (match (parseAiResponse negSharesResp).data with
      | some d => jget d kStocksMy JVal.null
      | none => JVal.null) =
      JVal.arr [JVal.obj [("symbol".toList, JVal.str "1155".toList),
        ("shares".toList, JVal.num (mkRat (-5) 1)),
        ("avgPrice".toList, JVal.num 2)]] :=
  ⟨rfl, rfl⟩

/-- Positivity of a retained holding's numbers. -/
def posOk (st : StockObj) : Bool :=
  decide (0 < st.shares) && decide (0 < st.avgPrice)

/-- One dataframe row-loop step keeps every retained number positive. -/
theorem dfRowStep_pos (acc : List StockObj × List StockObj) (row : DfRow)
    (h1 : acc.1.all posOk = true) (h2 : acc.2.all posOk = true) :
    ((dfRowStep acc row).1.all posOk) = true ∧
    ((dfRowStep acc row).2.all posOk) = true := by
  simp only [dfRowStep]
  split
  · exact ⟨h1, h2⟩
  · split
    · exact ⟨h1, h2⟩
    · split
      · exact ⟨h1, h2⟩
      · split
        · exact ⟨h1, h2⟩
        · rename_i hpos
          rw [Bool.not_eq_true, Bool.or_eq_false_iff] at hpos
          have hsh := lt_of_not_le (of_decide_eq_false hpos.1)
          have hav := lt_of_not_le (of_decide_eq_false hpos.2)
          split
          · refine ⟨h1, ?_⟩
            rw [List.all_append, Bool.and_eq_true]
            refine ⟨h2, ?_⟩
            simp [posOk, hsh, hav]
          · refine ⟨?_, h2⟩
            rw [List.all_append, Bool.and_eq_true]
            refine ⟨h1, ?_⟩
            simp [posOk, hsh, hav]

/-- The dataframe loop keeps every retained number positive. -/
theorem parseStocksFromDf_pos (df : DFrame) :
    ((parseStocksFromDf df).1.all posOk) = true ∧
    ((parseStocksFromDf df).2.all posOk) = true := by
  unfold parseStocksFromDf
  by_cases h : df.hasSymbolCol = true
  · simp only [h, if_true]
    suffices hh : ∀ acc : List StockObj × List StockObj,
        acc.1.all posOk = true → acc.2.all posOk = true →
        ((df.rows.foldl dfRowStep acc).1.all posOk) = true ∧
        ((df.rows.foldl dfRowStep acc).2.all posOk) = true from
      hh ([], []) rfl rfl
    induction df.rows with
    | nil => exact fun acc h1 h2 => ⟨h1, h2⟩
    | cons r rs ih =>
      intro acc h1 h2
      have hstep := dfRowStep_pos acc r h1 h2
      exact ih (dfRowStep acc r) hstep.1 hstep.2
  · simp only [Bool.not_eq_true] at h
    simp [h]

/-- Claim C5 (amended): the tabular extractors drop holdings with
non-positive quantity or non-positive average cost (sheet rows and
dataframe rows alike), but the AI-response normalizer performs no such
filtering — payload holdings pass through it verbatim, so zero/negative
entries reach the returned snapshot there. -/
theorem nonPositiveHoldingFiltering (rows : List StockRow) (df : DFrame)
    (resp : Str) (fs : List (Str × JVal))
    (h : jsonLoads (aiJsonSlice resp) = some (JVal.obj fs)) :
    ((parseStocksRows rows).1.all posOk = true) ∧
    ((parseStocksRows rows).2.all posOk = true) ∧
    ((parseStocksFromDf df).1.all posOk = true) ∧
    ((parseStocksFromDf df).2.all posOk = true) ∧
    (parseAiResponse resp).data = some [
      (kLiquid, jget fs kLiquid (JVal.arr [])),
      (kIlliquid, jget fs kIlliquid (JVal.arr [])),
      (kStocksMy, jget fs kStocksMy (JVal.arr [])),
      (kStocksUs, jget fs kStocksUs (JVal.arr [])),
      (kGold, jget fs kGold (JVal.arr [])),
      (kCash, jget fs kCash (JVal.num 0)),
      (kTotal, jget fs kTotal (JVal.num 0))] := by
  obtain ⟨hmy, hus⟩ := parseStocksRows_all rows
  rw [List.all_eq_true] at hmy hus
  have hdf := parseStocksFromDf_pos df
  refine ⟨?_, ?_, hdf.1, hdf.2, ?_⟩
  · rw [List.all_eq_true]
    intro st hst
    have := hmy st hst
    simp only [myStockOk, Bool.and_eq_true] at this
    simp [posOk, this.1.2, this.2]
  · rw [List.all_eq_true]
    intro st hst
    have := hus st hst
    simp only [usStockOk, Bool.and_eq_true] at this
    simp [posOk, this.1.2, this.2]
  · simp [parseAiResponse, h, mkAiSuccess]

/-- Closed instance of `nonPositiveHoldingFiltering` on a one-row sheet
and the negative-shares payload. -/
theorem nonPositiveHoldingFilteringWitness :
    ((parseStocksRows [abcRow]).1.all posOk = true) ∧
    (parseAiResponse negSharesResp).data = some [
      (kLiquid, jget [(kStocksMy, JVal.arr [JVal.obj
        [("symbol".toList, JVal.str "1155".toList),
         ("shares".toList, JVal.num (mkRat (-5) 1)),
         ("avgPrice".toList, JVal.num 2)]])] kLiquid (JVal.arr [])),
      (kIlliquid, JVal.arr []),
      (kStocksMy, JVal.arr [JVal.obj
        [("symbol".toList, JVal.str "1155".toList),
         ("shares".toList, JVal.num (mkRat (-5) 1)),
         ("avgPrice".toList, JVal.num 2)]]),
      (kStocksUs, JVal.arr []),
      (kGold, JVal.arr []),
      (kCash, JVal.num 0),
      (kTotal, JVal.num 0)] := by
  have := nonPositiveHoldingFiltering [abcRow] ⟨false, []⟩ negSharesResp
    [(kStocksMy, JVal.arr [JVal.obj
      [("symbol".toList, JVal.str "1155".toList),
       ("shares".toList, JVal.num (mkRat (-5) 1)),
       ("avgPrice".toList, JVal.num 2)]])] (by rfl)
  exact ⟨this.1, this.2.2.2.2⟩

/-! ## Claim C4: market grouping of the normalizer -/

/-- A payload that declares a foreign-shaped symbol under `stocks_my`. -/
def tslaInMyResp : Str :=
  "\x7b\"stocks_my\": [\x7b\"symbol\": \"TSLA\", \"shares\": 10, \"avgPrice\": 250.5\x7d], \"stocks_us\": []\x7d".toList

/-- Claim C4 counterexample: the payload groups the foreign-shaped
symbol `TSLA` under `stocks_my`; the normalizer keeps that grouping
verbatim — the holding stays in the domestic list and the foreign list
stays empty, with no re-derivation from the symbol shape. -/
theorem foreignSymbolKeptInDomesticGroup :
    (parseAiResponse tslaInMyResp).success = true ∧
    (match (parseAiResponse tslaInMyResp).data with
      | some d => jget d kStocksMy JVal.null
      | none => JVal.null) =
      JVal.arr [JVal.obj [("symbol".toList, JVal.str "TSLA".toList),
        ("shares".toList, JVal.num 10),
        ("avgPrice".toList, JVal.num (mkRat 501 2))]] ∧
    (match (parseAiResponse tslaInMyResp).data with
      | some d => jget d kStocksUs JVal.null
      | none => JVal.null) = JVal.arr [] ∧
    isUsSymbol "TSLA".toList = true :=
  ⟨rfl, by rfl, by rfl, rfl⟩

/-- Claim C4 (amended): the Response Normalizer takes the payload's
market grouping verbatim — whatever the payload declares as
`stocks_my`/`stocks_us` becomes the normalized holdings without
re-deriving any symbol's market; shape-based classification happens only
in the tabular and heuristic extractors. -/
theorem marketGroupingVerbatim (resp : Str) (fs : List (Str × JVal))
    (h : jsonLoads (aiJsonSlice resp) = some (JVal.obj fs)) :
    (match (parseAiResponse resp).data with
      | some d => jget d kStocksMy JVal.null
      | none => JVal.null) = jget fs kStocksMy (JVal.arr []) ∧
    (match (parseAiResponse resp).data with
      | some d => jget d kStocksUs JVal.null
      | none => JVal.null) = jget fs kStocksUs (JVal.arr []) := by
  have hrw : parseAiResponse resp = mkAiSuccess fs := by
    simp [parseAiResponse, h]
  rw [hrw]
  exact ⟨rfl, rfl⟩

/-- Closed instance of `marketGroupingVerbatim` at the `TSLA`-in-`stocks_my`
payload. -/
theorem marketGroupingVerbatimWitness :
    (match (parseAiResponse tslaInMyResp).data with
      | some d => jget d kStocksMy JVal.null
      | none => JVal.null) =
      jget [(kStocksMy, JVal.arr [JVal.obj
          [("symbol".toList, JVal.str "TSLA".toList),
           ("shares".toList, JVal.num 10),
           ("avgPrice".toList, JVal.num (mkRat 501 2))]]),
        (kStocksUs, JVal.arr [])] kStocksMy (JVal.arr []) :=
  (marketGroupingVerbatim tslaInMyResp
    [(kStocksMy, JVal.arr [JVal.obj
        [("symbol".toList, JVal.str "TSLA".toList),
         ("shares".toList, JVal.num 10),
         ("avgPrice".toList, JVal.num (mkRat 501 2))]]),
      (kStocksUs, JVal.arr [])] (by rfl)).1

/-! ## Claim C1: the derived grand total -/

/-- Replace the value stored at a key of a data dict, keeping everything
else unchanged. -/
def setKey (d : PData) (k : Str) (v : JVal) : PData :=
  d.map (fun p => if p.1 = k then (p.1, v) else p)

/-- Lookups at other keys are unaffected by `setKey`. -/
theorem jget_setKey_ne (d : PData) (k k2 : Str) (v : JVal) (d0 : JVal)
    (h : k2 ≠ k) : jget (setKey d k v) k2 d0 = jget d k2 d0 := by
  induction d generalizing d0 with
  | nil => rfl
  | cons p t ih =>
    obtain ⟨pk, pv⟩ := p
    show jget ((if pk = k then (pk, v) else (pk, pv)) :: setKey t k v) k2 d0 =
      jget ((pk, pv) :: t) k2 d0
    by_cases hp : pk = k
    · have hne : pk ≠ k2 := fun hh => h (hh ▸ hp)
      rw [if_pos hp]
      show (if pk = k2 then jget (setKey t k v) k2 v
          else jget (setKey t k v) k2 d0) =
        (if pk = k2 then jget t k2 pv else jget t k2 d0)
      rw [if_neg hne, if_neg hne]
      exact ih d0
    · rw [if_neg hp]
      show (if pk = k2 then jget (setKey t k v) k2 pv
          else jget (setKey t k v) k2 d0) =
        (if pk = k2 then jget t k2 pv else jget t k2 d0)
      by_cases hpk : pk = k2
      · rw [if_pos hpk, if_pos hpk]
        exact ih pv
      · rw [if_neg hpk, if_neg hpk]
        exact ih d0

/-- Claim C1 (amended): the derived `total_assets` is recomputed from the
line items as `round(Σ liquid + Σ illiquid + Σ holdings(my) +
Σ holdings(us), 2)` — the payload's own `total_assets` value is ignored
(recomputed, not cached), and neither `cash_balance` (carried into the
summary but not added) nor the metal lots (never read) are part of the
sum, contrary to the spec formula. -/
theorem reportTotalRecomputed (d : PData) (em msg : Str) (v : JVal)
    (tl ti tmy tus : ℚ)
    (hl : sumByKey kValue (jget d kLiquid (JVal.arr [])) = some tl)
    (hi : sumByKey kValue (jget d kIlliquid (JVal.arr [])) = some ti)
    (hm : sumSharesCost (jget d kStocksMy (JVal.arr [])) = some tmy)
    (hu : sumSharesCost (jget d kStocksUs (JVal.arr [])) = some tus) :
    genAssetReport ⟨true, some d, em, msg⟩ = GenResult.report
      ⟨round2 (qAdd (qAdd (qAdd tl ti) tmy) tus), round2 tl, round2 ti,
        round2 tmy, round2 tus, jget d kCash (JVal.num 0),
        jArrLen (jget d kLiquid (JVal.arr [])),
        jArrLen (jget d kIlliquid (JVal.arr [])),
        jArrLen (jget d kStocksMy (JVal.arr [])),
        jArrLen (jget d kStocksUs (JVal.arr []))⟩ ∧
    genAssetReport ⟨true, some (setKey d kTotal v), em, msg⟩ =
      genAssetReport ⟨true, some d, em, msg⟩ ∧
    genAssetReport ⟨true, some (setKey d kGold v), em, msg⟩ =
      genAssetReport ⟨true, some d, em, msg⟩ := by
  have base : ∀ d2 : PData,
      (∀ key d0, key ≠ kTotal → key ≠ kGold → jget d2 key d0 = jget d key d0) →
      genAssetReport ⟨true, some d2, em, msg⟩ =
        genAssetReport ⟨true, some d, em, msg⟩ := by
    intro d2 hsame
    simp only [genAssetReport]
    rw [hsame kLiquid _ (by decide) (by decide),
      hsame kIlliquid _ (by decide) (by decide),
      hsame kStocksMy _ (by decide) (by decide),
      hsame kStocksUs _ (by decide) (by decide),
      hsame kCash _ (by decide) (by decide)]
  refine ⟨?_, ?_, ?_⟩
  · simp [genAssetReport, hl, hi, hm, hu]
  · exact base _ (fun key d0 h1 _ => jget_setKey_ne d kTotal key v d0 h1)
  · exact base _ (fun key d0 _ h2 => jget_setKey_ne d kGold key v d0 h2)

/-- A full payload: liquid entry, two holdings, a metal lot, a cash
balance and an upstream grand total. -/
def fullResp : Str :=
  ("\x7b\"liquid_assets\": [\x7b\"name\": \"Cash\", \"value\": 50\x7d], " ++
   "\"stocks_my\": [\x7b\"symbol\": \"1155\", \"shares\": 100, \"avgPrice\": 9.20\x7d], " ++
   "\"stocks_us\": [\x7b\"symbol\": \"TSLA\", \"shares\": 10, \"avgPrice\": 250.5\x7d], " ++
   "\"gold\": [\x7b\"weight\": 5, \"purchasePrice\": 300\x7d], " ++
   "\"cash_balance\": 77, \"total_assets\": 999999\x7d").toList

/-- The normalized data of the full payload. -/
def fullData : PData := (parseAiResponse fullResp).data.getD []

/-- Closed instance of `reportTotalRecomputed` at the full payload: the
hypotheses hold with the concrete category sums, and overwriting the
payload's upstream `total_assets` does not change the report. -/
theorem reportTotalRecomputedWitness :
    sumByKey kValue (jget fullData kLiquid (JVal.arr [])) = some 50 ∧
    sumSharesCost (jget fullData kStocksMy (JVal.arr [])) = some 920 ∧
    sumSharesCost (jget fullData kStocksUs (JVal.arr [])) = some 2505 ∧
    genAssetReport ⟨true, some (setKey fullData kTotal (JVal.num 0)), "AI".toList, []⟩ =
      genAssetReport ⟨true, some fullData, "AI".toList, []⟩ :=
  ⟨by decide, by decide, by decide,
    (reportTotalRecomputed fullData "AI".toList [] (JVal.num 0) 50 0 920 2505
      (by decide) (by decide) (by decide) (by decide)).2.1⟩

/-- Claim C1 counterexample: on the successfully parsed payload carrying
only `cash_balance: 100`, the derived summary total is `0`, while the
claimed formula — which adds the cash balance and the metal total —
gives `100`; the two disagree, so the claimed equation fails. -/
theorem grandTotalOmitsCash :
    (parseAiResponse cashOnlyResp).success = true ∧
    (match genAssetReport (parseAiResponse cashOnlyResp) with
      | GenResult.report r => some r.totalAssets
      | _ => none) = some 0 ∧
    (match (parseAiResponse cashOnlyResp).data with
      | some d => specGrandTotal d
      | none => none) = some 100 ∧
    (0 : ℚ) ≠ 100 :=
  ⟨rfl, by decide, by decide, by decide⟩

/-! ## Claim C6: structured failure at the parse entry points -/

/-- Every result of the AI response normalizer is a success or carries a
nonempty human-readable message. -/
theorem parseAiResponse_structured (resp : Str) :
    (parseAiResponse resp).success = true ∨
      ((parseAiResponse resp).success = false ∧
        (parseAiResponse resp).errorMsg ≠ []) := by
  unfold parseAiResponse
  cases jsonLoads (aiJsonSlice resp) with
  | none => exact Or.inr ⟨rfl, by simp⟩
  | some v => cases v <;> first
    | exact Or.inl rfl
    | exact Or.inr ⟨rfl, by simp⟩

/-- A provider slot that yields a result yields a normalizer result. -/
theorem providerSlot_structured (k : Bool) (resp : ProviderResp) (r : PResult)
    (h : (if k then callProviderApi resp else none) = some r) :
    r.success = true ∨ (r.success = false ∧ r.errorMsg ≠ []) := by
  cases k with
  | false => simp at h
  | true =>
    cases resp with
    | none => simp [callProviderApi] at h
    | some body =>
      have hh : parseAiResponse body = r := by
        simpa [callProviderApi] using h
      exact hh ▸ parseAiResponse_structured body

/-- The analyzer returns a success or a structured failure. -/
theorem analyzeWithAi_structured (cfg : ApiCfg) (a g o : ProviderResp)
    (txt : Str) :
    (analyzeWithAi cfg a g o txt).success = true ∨
      ((analyzeWithAi cfg a g o txt).success = false ∧
        (analyzeWithAi cfg a g o txt).errorMsg ≠ []) := by
  unfold analyzeWithAi
  cases h1 : (if cfg.anthropicKey then callProviderApi a else none) with
  | some r => simp only [h1]; exact providerSlot_structured _ _ _ h1
  | none =>
    simp only [h1]
    cases h2 : (if cfg.groqKey then callProviderApi g else none) with
    | some r => simp only [h2]; exact providerSlot_structured _ _ _ h2
    | none =>
      simp only [h2]
      cases h3 : (if cfg.openaiKey then callProviderApi o else none) with
      | some r => simp only [h3]; exact providerSlot_structured _ _ _ h3
      | none => simp only [h3]; exact Or.inl rfl

/-- Claim C6: for every declared file type and every extraction-layer
outcome, the two top-level parse entry points never raise: each returns
`success = true` or a structured failure with a nonempty human-readable
message — unsupported types and malformed workbooks included. -/
theorem parseEntryPointsStructuredFailure (cfg : ApiCfg)
    (a g o : ProviderResp) (fileType : Str) (excelText pdfText : Option Str)
    (path : Str) (excelEnv : Option (List SheetIn))
    (csvEnv : Option (Option DFrame)) (pdfEnv : Option PdfDoc) :
    ((parseFileWithAi cfg a g o fileType excelText pdfText).success = true ∨
      ((parseFileWithAi cfg a g o fileType excelText pdfText).success = false ∧
        (parseFileWithAi cfg a g o fileType excelText pdfText).errorMsg ≠ [])) ∧
    ((parseFileSP path excelEnv csvEnv pdfEnv).success = true ∨
      ((parseFileSP path excelEnv csvEnv pdfEnv).success = false ∧
        (parseFileSP path excelEnv csvEnv pdfEnv).errorMsg ≠ [])) := by
  constructor
  · unfold parseFileWithAi
    split
    · unfold parseExcelWithAi
      cases excelText with
      | none => exact Or.inr ⟨rfl, by simp [failResult]⟩
      | some t => exact analyzeWithAi_structured cfg a g o t
    · split
      · unfold parsePdfWithAi
        cases pdfText with
        | none => exact Or.inr ⟨rfl, by simp [failResult]⟩
        | some t =>
          by_cases ht : (stripCs t).isEmpty = true
          · simp only [ht, if_true]
            exact Or.inr ⟨rfl, by simp [failResult]⟩
          · simp only [ht, Bool.false_eq_true, if_false]
            exact analyzeWithAi_structured cfg a g o t
      · split
        · exact Or.inr ⟨rfl, by simp [parseImageWithAi, failResult]⟩
        · exact Or.inr ⟨rfl, by simp [failResult]⟩
  · simp only [parseFileSP]
    split
    · unfold parseExcelSP
      cases excelEnv with
      | none => exact Or.inr ⟨rfl, by simp [sFail]⟩
      | some sheets => exact Or.inl rfl
    · split
      · unfold parseCsvSP
        match csvEnv with
        | none => exact Or.inr ⟨rfl, by simp [sFail]⟩
        | some none => exact Or.inr ⟨rfl, by simp [sFail]⟩
        | some (some df) => exact Or.inl rfl
      · split
        · unfold parsePdfSP
          cases pdfEnv with
          | none => exact Or.inr ⟨rfl, by simp [sFail]⟩
          | some doc => exact Or.inl rfl
        · exact Or.inr ⟨rfl, by simp [sFail]⟩

/-! ## Claim C7: extraction of a wrapped JSON object -/

/-- A string is a prefix of itself followed by anything. -/
theorem startsWithCs_self_append (k r : Str) : startsWithCs k (k ++ r) = true := by
  induction k with
  | nil => rfl
  | cons c t ih => simp [startsWithCs, ih]

/-- Lemma: `splitAtKey` finds the first occurrence when the leading
character of the key does not occur earlier. -/
theorem splitAtKey_append (kc : Char) (kt p r : Str) (hp : kc ∉ p) :
    splitAtKey (kc :: kt) (p ++ ((kc :: kt) ++ r)) = some (p, r) := by
  induction p with
  | nil =>
    rw [List.nil_append]
    show splitAtKey (kc :: kt) (kc :: (kt ++ r)) = some ([], r)
    have h1 : startsWithCs (kc :: kt) (kc :: (kt ++ r)) = true := by
      simp [startsWithCs, startsWithCs_self_append]
    simp only [splitAtKey, h1, if_true, Option.some.injEq]
    have h2 : (kc :: (kt ++ r)).drop (kc :: kt).length = r := by
      show (kt ++ r).drop kt.length = r
      exact List.drop_left kt r
    rw [h2]
  | cons c t ih =>
    have hc : kc ≠ c := fun hh => hp (hh ▸ List.mem_cons_self c t)
    show splitAtKey (kc :: kt) (c :: (t ++ ((kc :: kt) ++ r))) = some (c :: t, r)
    have hstart : startsWithCs (kc :: kt) (c :: (t ++ ((kc :: kt) ++ r))) = false := by
      simp [startsWithCs, hc]
    simp only [splitAtKey, hstart, Bool.false_eq_true, if_false]
    rw [ih (fun hh => hp (List.mem_cons_of_mem c hh))]
    rfl

/-- Lemma: `splitAtKey` fails when the key's leading character never
occurs. -/
theorem splitAtKey_none (kc : Char) (kt s : Str) (h : kc ∉ s) :
    splitAtKey (kc :: kt) s = none := by
  induction s with
  | nil => rfl
  | cons c t ih =>
    have hc : kc ≠ c := fun hh => h (hh ▸ List.mem_cons_self c t)
    have hstart : startsWithCs (kc :: kt) (c :: t) = false := by
      simp [startsWithCs, hc]
    simp only [splitAtKey, hstart, Bool.false_eq_true, if_false]
    rw [ih (fun hh => h (List.mem_cons_of_mem c hh))]
    rfl

/-- Dropping a predicate over an all-satisfying prefix. -/
theorem dropWhile_append_all (p : Char → Bool) (w s : Str)
    (hw : w.all p = true) : (w ++ s).dropWhile p = s.dropWhile p := by
  induction w with
  | nil => rfl
  | cons c t ih =>
    rw [List.all_cons, Bool.and_eq_true] at hw
    simp only [List.cons_append, List.dropWhile_cons, hw.1, if_true]
    exact ih hw.2

/-- Dropping a predicate stops at a failing head. -/
theorem dropWhile_head_false (p : Char → Bool) (c : Char) (t : Str)
    (hc : p c = false) : (c :: t).dropWhile p = c :: t := by
  simp [List.dropWhile_cons, hc]

/-- Lemma: `dropBeforeC` finds the first occurrence. -/
theorem dropBeforeC_append (x : Char) (a t : Str) (ha : x ∉ a) :
    dropBeforeC x (a ++ x :: t) = some (x :: t) := by
  induction a with
  | nil => simp [dropBeforeC]
  | cons c a2 ih =>
    have hc : c ≠ x := fun hh => ha (hh ▸ List.mem_cons_self c a2)
    simp only [List.cons_append, dropBeforeC, hc, if_false]
    exact ih (fun hh => ha (List.mem_cons_of_mem c hh))

/-- Lemma: `takeThroughLastC` fails on occurrence-free strings. -/
theorem takeThroughLastC_none (x : Char) (l : Str) (h : x ∉ l) :
    takeThroughLastC x l = none := by
  induction l with
  | nil => rfl
  | cons c t ih =>
    have hc : c ≠ x := fun hh => h (hh ▸ List.mem_cons_self c t)
    simp only [takeThroughLastC, ih (fun hh => h (List.mem_cons_of_mem c hh)), hc,
      if_false]

/-- Lemma: `takeThroughLastC` cuts at the last occurrence. -/
theorem takeThroughLastC_last (x : Char) (s b : Str) (hb : x ∉ b) :
    takeThroughLastC x (s ++ x :: b) = some (s ++ [x]) := by
  induction s with
  | nil =>
    simp [takeThroughLastC, takeThroughLastC_none x b hb]
  | cons c s2 ih =>
    show takeThroughLastC x (c :: (s2 ++ x :: b)) = some (c :: (s2 ++ [x]))
    simp only [takeThroughLastC, ih]

/-- Lemma: `fenceScan` stops immediately where whitespace leads to a
closing fence. -/
theorem fenceScan_stop (r : Str)
    (h : startsWithCs tick3 (dropWsPy r) = true) : fenceScan r = some [] := by
  cases r with
  | nil => simp [dropWsPy, startsWithCs, tick3] at h
  | cons c t => simp only [fenceScan, h, if_true]

/-- Lemma: `fenceScan` walks over a region in which no stop position
occurs and stops right after it. -/
theorem fenceScan_append (s r : Str)
    (hfail : ∀ x c y, s = x ++ c :: y →
      startsWithCs tick3 (dropWsPy ((c :: y) ++ r)) = false)
    (hr : startsWithCs tick3 (dropWsPy r) = true) :
    fenceScan (s ++ r) = some s := by
  induction s with
  | nil => simpa using fenceScan_stop r hr
  | cons c s2 ih =>
    have hc := hfail [] c s2 rfl
    rw [List.cons_append] at hc ⊢
    simp only [fenceScan, hc, Bool.false_eq_true, if_false]
    rw [ih (fun x c2 y hx => hfail (c :: x) c2 y (by rw [hx, List.cons_append]))]
    rfl

/-- A region that still holds a non-whitespace character keeps its first
such character at the head after whitespace dropping. -/
theorem dropWhile_keeps_witness (l r : Str) (hl : l.all isWsC = false) :
    ∃ d t, d ∈ l ∧ isWsC d = false ∧
      dropWsPy (l ++ r) = d :: (t ++ r) ∧ dropWsPy l = d :: t := by
  induction l with
  | nil => simp at hl
  | cons c l2 ih =>
    cases hc : isWsC c with
    | false =>
      refine ⟨c, l2, List.mem_cons_self c l2, hc, ?_, ?_⟩
      · rw [List.cons_append]
        exact dropWhile_head_false isWsC c (l2 ++ r) hc
      · exact dropWhile_head_false isWsC c l2 hc
    | true =>
      rw [List.all_cons, hc, Bool.true_and] at hl
      obtain ⟨d, t, hd1, hd2, hd3, hd4⟩ := ih hl
      refine ⟨d, t, List.mem_cons_of_mem c hd1, hd2, ?_, ?_⟩
      · rw [List.cons_append]
        rw [show dropWsPy (c :: (l2 ++ r)) = dropWsPy (l2 ++ r) by
          simp [dropWsPy, List.dropWhile_cons, hc]]
        exact hd3
      · rw [show dropWsPy (c :: l2) = dropWsPy l2 by
          simp [dropWsPy, List.dropWhile_cons, hc]]
        exact hd4

/-- A nonempty suffix region of the extracted object cannot start a stop
position, because its first non-whitespace character belongs to the
backtick-free object text. -/
theorem fence_noStop_inside (s r : Str) (c : Char) (y : Str)
    (hlast : ∃ s2, s = s2 ++ ['\x7d']) (hts : '\x60' ∉ s)
    (hsplit : ∃ x, s = x ++ c :: y) :
    startsWithCs tick3 (dropWsPy ((c :: y) ++ r)) = false := by
  obtain ⟨s2, hs2⟩ := hlast
  obtain ⟨x, hx⟩ := hsplit
  have hmemall : ∀ z ∈ (c :: y), z ∈ s := fun z hz => by
    rw [hx]
    exact List.mem_append_right x hz
  have hgl : (c :: y).getLast? = some '\x7d' := by
    have h1 : s.getLast? = some '\x7d' := by
      rw [hs2]
      exact List.getLast?_concat _
    rw [hx, List.getLast?_append_of_ne_nil x (List.cons_ne_nil c y)] at h1
    exact h1
  have hrb : ('\x7d' : Char) ∈ c :: y := by
    have he := List.getLast?_eq_getLast (c :: y) (List.cons_ne_nil c y)
    rw [he] at hgl
    have h2 := Option.some.inj hgl
    rw [← h2]
    exact List.getLast_mem _
  have hsome : (c :: y).all isWsC = false := by
    cases hall : (c :: y).all isWsC with
    | false => rfl
    | true =>
      have := List.all_eq_true.mp hall '\x7d' hrb
      simp [isWsC] at this
  obtain ⟨d, t, hd1, hd2, hd3, _⟩ := dropWhile_keeps_witness (c :: y) r hsome
  have hdne : ('\x60' : Char) ≠ d := fun hh => hts (hh ▸ hmemall d hd1)
  rw [hd3]
  show startsWithCs ("\x60\x60\x60".toList) (d :: (t ++ r)) = false
  simp [startsWithCs, hdne]

/-- Claim C7: a response text carrying one well-formed JSON object — as
wrapping, explanatory prose free of braces and backticks, or a markdown
code fence — has exactly that object extracted and parsed while the
surrounding text is ignored; the result is a success dict carrying every
expected top-level field, absent fields defaulted to an empty sequence
or zero and unexpected extra fields ignored (`mkAiSuccess`). -/
theorem wrappedJsonExtracted (a b w1 w2 s s1 s2 : Str)
    (fs : List (Str × JVal))
    (hjson : jsonLoads s = some (JVal.obj fs))
    (hs1 : s = '\x7b' :: s1) (hs2 : s = s2 ++ ['\x7d'])
    (hla : '\x7b' ∉ a) (hrb : '\x7d' ∉ b)
    (hta : '\x60' ∉ a) (hts : '\x60' ∉ s) (htb : '\x60' ∉ b)
    (hw1 : w1.all isWsC = true) (hw2 : w2.all isWsC = true) :
    parseAiResponse (a ++ (s ++ b)) = mkAiSuccess fs ∧
    parseAiResponse (a ++ (fenceKey ++ (w1 ++ (s ++ (w2 ++ (tick3 ++ b)))))) =
      mkAiSuccess fs := by
  have hfk : fenceKey = '\x60' :: "\x60\x60json".toList := rfl
  constructor
  · have hmem : '\x60' ∉ a ++ (s ++ b) := by
      intro hmem
      rcases List.mem_append.mp hmem with h | h
      · exact hta h
      · rcases List.mem_append.mp h with h2 | h2
        · exact hts h2
        · exact htb h2
    have hnofence : extractFenced (a ++ (s ++ b)) = none := by
      unfold extractFenced
      simp only [extractFencedAux, hfk, splitAtKey_none '\x60' _ _ hmem]
    have h1 : dropBeforeC '\x7b' (a ++ (s ++ b)) = some (s ++ b) := by
      rw [hs1]
      show dropBeforeC '\x7b' (a ++ ('\x7b' :: (s1 ++ b))) =
        some ('\x7b' :: (s1 ++ b))
      exact dropBeforeC_append '\x7b' a (s1 ++ b) hla
    have h2 : takeThroughLastC '\x7d' (s ++ b) = some s := by
      conv_lhs => rw [hs2]
      rw [List.append_assoc]
      show takeThroughLastC '\x7d' (s2 ++ ('\x7d' :: b)) = some s
      rw [takeThroughLastC_last '\x7d' s2 b hrb, ← hs2]
    have hbrace : extractBraced (a ++ (s ++ b)) = some s := by
      unfold extractBraced
      rw [h1]
      exact h2
    have hslice : aiJsonSlice (a ++ (s ++ b)) = s := by
      unfold aiJsonSlice
      rw [hnofence, hbrace]
    unfold parseAiResponse
    rw [hslice, hjson]
  · have hX : startsWithCs tick3 (dropWsPy (w2 ++ (tick3 ++ b))) = true := by
      show startsWithCs tick3 ((w2 ++ (tick3 ++ b)).dropWhile isWsC) = true
      rw [dropWhile_append_all isWsC w2 (tick3 ++ b) hw2]
      have h3 : (tick3 ++ b).dropWhile isWsC = tick3 ++ b := by
        show (('\x60' :: "\x60\x60".toList) ++ b).dropWhile isWsC =
          ('\x60' :: "\x60\x60".toList) ++ b
        rw [List.cons_append]
        exact dropWhile_head_false isWsC '\x60' ("\x60\x60".toList ++ b)
          (by decide)
      rw [h3]
      exact startsWithCs_self_append tick3 b
    have hscan : fenceScan (s ++ (w2 ++ (tick3 ++ b))) = some s := by
      apply fenceScan_append
      · intro x c y hxy
        exact fence_noStop_inside s (w2 ++ (tick3 ++ b)) c y ⟨s2, hs2⟩ hts
          ⟨x, hxy⟩
      · exact hX
    have hsplitT : splitAtKey fenceKey
        (a ++ (fenceKey ++ (w1 ++ (s ++ (w2 ++ (tick3 ++ b)))))) =
        some (a, w1 ++ (s ++ (w2 ++ (tick3 ++ b)))) := by
      rw [hfk]
      exact splitAtKey_append '\x60' _ a _ hta
    have hdrop : dropWsPy (w1 ++ (s ++ (w2 ++ (tick3 ++ b)))) =
        s ++ (w2 ++ (tick3 ++ b)) := by
      show (w1 ++ (s ++ (w2 ++ (tick3 ++ b)))).dropWhile isWsC = _
      rw [dropWhile_append_all isWsC w1 _ hw1]
      rw [hs1]
      rw [List.cons_append]
      exact dropWhile_head_false isWsC _ _ (by decide)
    have hfenced : extractFenced
        (a ++ (fenceKey ++ (w1 ++ (s ++ (w2 ++ (tick3 ++ b)))))) = some s := by
      unfold extractFenced
      simp only [extractFencedAux, hsplitT]
      rw [hdrop, hscan]
    have hslice2 : aiJsonSlice
        (a ++ (fenceKey ++ (w1 ++ (s ++ (w2 ++ (tick3 ++ b)))))) = s := by
      unfold aiJsonSlice
      rw [hfenced]
    unfold parseAiResponse
    rw [hslice2, hjson]

/-- Closed instance of `wrappedJsonExtracted`: the cash-only object in
prose and in a code fence, with most expected fields absent and thereby
defaulted. -/
theorem wrappedJsonExtractedWitness :
    parseAiResponse ("Result: ".toList ++ (cashOnlyResp ++ " end.".toList)) =
      mkAiSuccess [("cash_balance".toList, JVal.num 100)] ∧
    parseAiResponse ("Result: ".toList ++ (fenceKey ++ ("\n".toList ++
      (cashOnlyResp ++ ("\n ".toList ++ (tick3 ++ " end.".toList)))))) =
      mkAiSuccess [("cash_balance".toList, JVal.num 100)] :=
  wrappedJsonExtracted "Result: ".toList " end.".toList "\n".toList
    "\n ".toList cashOnlyResp "\"cash_balance\": 100\x7d".toList
    "\x7b\"cash_balance\": 100".toList
    [("cash_balance".toList, JVal.num 100)] (by rfl) (by rfl) (by rfl)
    (by decide) (by decide) (by decide) (by decide) (by decide) (by decide)
    (by decide)

end AssetModel
